import Mathlib

/-!
Verification of the multi-tenant file-upload service (provider routing layer,
the S3-like and Azure-like storage adapters, and the name-sanitization
utilities).

Strings are modelled as `List Char` (`Str`), which matches the character-level
semantics of the JavaScript string operations used by the source
(`split`, `join`, `substring`, regex replacements over explicit character
classes).  JavaScript regular expressions are embedded as structurally
recursive character-list transformers; each definition documents the regex it
models.  `toLowerCase` is modelled on the ASCII range (the sanitizers discard
every non-ASCII character anyway, and no claim depends on non-ASCII case
mapping).  The cloud SDKs are external collaborators: their calls are modelled
by an explicit world state (containers / objects / recorded delete calls /
signing counter) plus an injectable fault for delete calls.
-/

set_option maxRecDepth 10000
set_option synthInstance.maxHeartbeats 400000

abbrev Str := List Char

/-- Character list of a Lean string literal (used to write concrete strings). -/
def str (s : String) : Str := s.toList

/-- The hyphen character. -/
def hyph : Char := Char.ofNat 45

/-- The dot character. -/
def dot : Char := Char.ofNat 46

/-- The forward slash character. -/
def slash : Char := Char.ofNat 47

/-- The semicolon character. -/
def semi : Char := Char.ofNat 59

/-- The apostrophe character (written by code point to keep sources plain). -/
def apos : Char := Char.ofNat 39

/-- The apostrophe as a one-character string, for error-message templates. -/
def aposS : Str := [apos]

/-- Model of JavaScript `s.split(sep)` for a one-character separator:
`charSplit sep []` is `[[]]`, matching `"".split(sep) == [""]`. -/
def charSplit (sep : Char) : Str → List Str
  | [] => [[]]
  | c :: cs =>
    if c = sep then [] :: charSplit sep cs
    else
      match charSplit sep cs with
      | [] => [[c]]
      | h :: t => (c :: h) :: t

/-- Model of JavaScript `parts.join(sep)` for a one-character separator. -/
def joinSep (sep : Char) : List Str → Str
  | [] => []
  | [x] => x
  | x :: xs => x ++ sep :: joinSep sep xs

/-- Model of JavaScript `s.includes(pat)`. -/
def containsSeq (pat : Str) : Str → Bool
  | [] => decide (pat = [])
  | c :: cs => pat.isPrefixOf (c :: cs) || containsSeq pat cs

/-- The JavaScript whitespace class used by `\s` and `trim()`: the
ECMAScript WhiteSpace and LineTerminator code points (TAB LF VT FF CR SP
NBSP, OGHAM SPACE MARK, EN QUAD .. HAIR SPACE, LS, PS, NARROW NBSP, MMSP,
IDEOGRAPHIC SPACE, ZWNBSP). -/
def isJsSpace (c : Char) : Bool :=
  c.toNat = 9 || c.toNat = 10 || c.toNat = 11 || c.toNat = 12 ||
  c.toNat = 13 || c.toNat = 32 || c.toNat = 160 || c.toNat = 5760 ||
  c.toNat = 8192 || c.toNat = 8193 || c.toNat = 8194 || c.toNat = 8195 ||
  c.toNat = 8196 || c.toNat = 8197 || c.toNat = 8198 || c.toNat = 8199 ||
  c.toNat = 8200 || c.toNat = 8201 || c.toNat = 8202 || c.toNat = 8232 ||
  c.toNat = 8233 || c.toNat = 8239 || c.toNat = 8287 || c.toNat = 12288 ||
  c.toNat = 65279

/-- ASCII case folding, modelling `toLowerCase` on the range the sanitizers
can keep (every non-ASCII character is dropped by the allow-list filter). -/
def asciiToLower (c : Char) : Char :=
  if 65 ≤ c.toNat ∧ c.toNat ≤ 90 then Char.ofNat (c.toNat + 32) else c

/-- Model of JavaScript `s.toLowerCase()` (ASCII range, see `asciiToLower`). -/
def lowerStr (l : Str) : Str := l.map asciiToLower

/-- Model of JavaScript `s.trim()`. -/
def trimStr (l : Str) : Str :=
  ((l.dropWhile isJsSpace).reverse.dropWhile isJsSpace).reverse

/-- Model of the regex replacement `-+$` with the empty string: remove the maximal run of trailing
hyphens. -/
def stripTrailingHyphens (l : Str) : Str :=
  (l.reverse.dropWhile (· = hyph)).reverse

/-- `utils/sanitizeBucketName.js`: trim, lowercase, strip trailing hyphens. -/
def sanitizeBucketName (l : Str) : Str :=
  stripTrailingHyphens (lowerStr (trimStr l))

/-- The allow-list `[a-z0-9!._*'()-]` of `sanitizeFileName`. -/
def isAllowedChar (c : Char) : Bool :=
  (97 ≤ c.toNat && c.toNat ≤ 122) || (48 ≤ c.toNat && c.toNat ≤ 57) ||
  c.toNat = 33 || c.toNat = 46 || c.toNat = 95 || c.toNat = 42 ||
  c.toNat = 39 || c.toNat = 40 || c.toNat = 41 || c.toNat = 45

/-- Model of `s.replace(/\s+/g, "-")`: each maximal whitespace run becomes a
single hyphen (a whitespace character followed by more whitespace is dropped,
the last one of the run becomes the hyphen). -/
def collapseWs : Str → Str
  | [] => []
  | c :: cs =>
    (if isJsSpace c then
       (match cs.head? with
        | some d => if isJsSpace d then [] else [hyph]
        | none => [hyph])
     else [c]) ++ collapseWs cs

/-- Model of the global regex replacement of `-+` with a single hyphen: each maximal hyphen run becomes a single
hyphen. -/
def collapseHyphens : Str → Str
  | [] => []
  | c :: cs =>
    (if c = hyph ∧ cs.head? = some hyph then [] else [c]) ++ collapseHyphens cs

/-- Model of `s.replace(/^-+/, "")`. -/
def stripLeadingHyphens (l : Str) : Str := l.dropWhile (· = hyph)

/-- Model of the global regex replacement of `-+\.` with a dot: a hyphen is removed exactly when its
hyphen run is immediately followed by a dot (the dot is kept). -/
def remHyphensBeforeDot : Str → Str
  | [] => []
  | c :: cs =>
    (if c = hyph ∧ (cs.dropWhile (· = hyph)).head? = some dot then []
     else [c]) ++ remHyphensBeforeDot cs

/-- `utils/sanitizeFileName.js`: lowercase, whitespace to hyphens, allow-list
filter, collapse hyphen runs, strip leading and trailing hyphens, remove
hyphens before dots — composed in source order. -/
def sanitizeFileName (l : Str) : Str :=
  remHyphensBeforeDot (stripTrailingHyphens (stripLeadingHyphens
    (collapseHyphens ((collapseWs (lowerStr l)).filter isAllowedChar))))

/-- `true` when no two adjacent characters of the list are `a` then `b`. -/
def noPair (a b : Char) : Str → Bool
  | [] => true
  | [_] => true
  | c :: d :: t => !(c = a && d = b) && noPair a b (d :: t)

/-- Invariant characterizing the image of `sanitizeFileName`: only allow-list
characters, no double hyphen, no hyphen at either end, no hyphen directly
before a dot. -/
def sanNormalized (l : Str) : Prop :=
  l.all isAllowedChar = true ∧ noPair hyph hyph l = true ∧
  noPair hyph dot l = true ∧ l.head? ≠ some hyph ∧ l.getLast? ≠ some hyph

example : sanitizeFileName (str "My File.txt") = str "my-file.txt" := by decide
example : sanitizeFileName (str "file---name.txt") = str "file-name.txt" := by decide
example : sanitizeBucketName (str "  Docs--") = str "docs" := by decide
example : sanitizeBucketName (str "a -") = str "a " := by decide

/-- JavaScript values that can appear in a caller-supplied metadata map. -/
inductive JsVal where
  | vstr : Str → JsVal
  | vnum : Int → JsVal
  | vbool : Bool → JsVal
deriving DecidableEq

/-- Decimal rendering of a natural number, as `String(n)` produces. -/
def natToStr (n : Nat) : Str := Nat.toDigits 10 n

/-- Decimal rendering of an integer, as `String(i)` produces. -/
def intToStr (i : Int) : Str :=
  if i < 0 then hyph :: natToStr i.natAbs else natToStr i.toNat

/-- Model of the JavaScript `String(v)` coercion. -/
def jsString : JsVal → Str
  | .vstr s => s
  | .vnum n => intToStr n
  | .vbool b => if b then str "true" else str "false"

/-- A JavaScript object with string keys (keys are unique in a real JS
object; lemmas that depend on it take a `Nodup` hypothesis). -/
abbrev JsObj := List (Str × JsVal)

/-- Property read `o[k]` (`none` models `undefined`); keys of a real JS
object are unique, so taking the first matching entry is exact. -/
def objGet (o : JsObj) (k : Str) : Option JsVal :=
  match o with
  | [] => none
  | p :: t => if p.1 = k then some p.2 else objGet t k

/-- Property write `o[k] = v` (replaces any existing entry for `k`). -/
def objSet (o : JsObj) (k : Str) (v : JsVal) : JsObj :=
  o.filter (fun p => p.1 ≠ k) ++ [(k, v)]

/-- Object-literal spread `{...o1, ...o2}`: entries of `o2` override `o1`. -/
def objMerge (o1 o2 : JsObj) : JsObj :=
  o2.foldl (fun acc p => objSet acc p.1 p.2) o1

/-- `v || d` for a possibly-undefined JavaScript number: `undefined` and `0`
are falsy (`NaN` is not modelled; it cannot reach these call sites). -/
def jsOrNum (o : Option Int) (d : Int) : Int :=
  match o with
  | none => d
  | some n => if n = 0 then d else n

/-- `v || d` for a possibly-undefined JavaScript string: `undefined` and the
empty string are falsy. -/
def jsOrStr (o : Option Str) (d : Str) : Str :=
  match o with
  | none => d
  | some s => if s = [] then d else s

/-- Truthiness of a possibly-undefined JavaScript string. -/
def jsTruthyOpt (o : Option Str) : Bool :=
  match o with
  | none => false
  | some s => s ≠ []

/-- String interpolation of a possibly-undefined value (JavaScript renders
`undefined` as the text `undefined` inside a template literal). -/
def jsStrOfOpt (o : Option Str) : Str :=
  match o with
  | none => str "undefined"
  | some s => s

/-- WHATWG URL path normalization over the slash-separated segments: a `..`
segment removes the previously accepted segment and a `.` segment is
skipped, each contributing a trailing empty segment when it is the final
segment (the percent-encoded dot forms `%2e` are not modelled — the
round-trip hypotheses exclude `%`).  `acc` holds the segments accepted so
far, in order. -/
def normalizeDotSegments (acc : List Str) : List Str → List Str
  | [] => acc
  | [s] =>
    if s = str ".." then acc.dropLast ++ [[]]
    else if s = str "." then acc ++ [[]]
    else acc ++ [s]
  | s :: rest =>
    if s = str ".." then normalizeDotSegments acc.dropLast rest
    else if s = str "." then normalizeDotSegments acc rest
    else normalizeDotSegments (acc ++ [s]) rest

/-- Model of `new URL(u)` restricted to the `https` URLs this service builds:
yields `(hostname, pathname)`; the path of a host-only URL is `/`, and the
pathname undergoes the WHATWG dot-segment normalization
(`normalizeDotSegments`).  Percent-encoding is not modelled — the round-trip
theorems carry an explicit allow-list hypothesis on the characters involved
(no `%`, no `\`), under which `new URL` performs no further rewriting. -/
def parseHttpsUrl (url : Str) : Except Str (Str × Str) :=
  if (str "https://").isPrefixOf url then
    let rest := url.drop 8
    let host := rest.takeWhile (· ≠ slash)
    match rest.dropWhile (· ≠ slash) with
    | [] => .ok (host, [slash])
    | _ :: segsRaw =>
      .ok (host, slash :: joinSep slash
        (normalizeDotSegments [] (charSplit slash segsRaw)))
  else .error (str "Invalid URL")

/-- Parse result of `AWSS3StorageProvider.parseUrl`. -/
structure AwsParsed where
  bucketName : Str
  key : Str
  region : Str
  baseUrl : Str
  fullPath : Str
deriving DecidableEq

/-- `AWSS3StorageProvider.parseUrl`: virtual-hosted style when the hostname
contains `.s3.` (bucket is the first dot-component of the hostname, key is the
path without its leading slash), otherwise path style (first non-empty path
segment is the bucket, the remaining segments joined by `/` are the key). -/
def awsParseUrl (region url : Str) : Except Str AwsParsed :=
  match parseHttpsUrl url with
  | .error e => .error (str "Failed to parse S3 URL: " ++ e)
  | .ok (host, path) =>
    let bk : Str × Str :=
      if containsSeq (str ".s3.") host then
        ((charSplit dot host).headD [], path.drop 1)
      else
        let parts := (charSplit slash path).filter (fun p => p ≠ [])
        (parts.headD [], joinSep slash (parts.drop 1))
    .ok ⟨bk.1, bk.2, region,
      str "https://" ++ bk.1 ++ str ".s3." ++ region ++ str ".amazonaws.com",
      slash :: bk.2⟩

/-- The permanent address `AWSS3StorageProvider.uploadFile` returns:
`https://{bucket}.s3.{region}.amazonaws.com/{key}`. -/
def awsBuildUrl (region bucket key : Str) : Str :=
  str "https://" ++ bucket ++ str ".s3." ++ region ++ str ".amazonaws.com/" ++ key

/-- Parse result of `AzureStorageProvider.parseUrl`. -/
structure AzureParsed where
  accountName : Str
  containerName : Str
  blobName : Str
  baseUrl : Str
  fullPath : Str
deriving DecidableEq

/-- `AzureStorageProvider.parseUrl`: account is the first dot-component of the
hostname; the first non-empty path segment is the container and the remaining
segments joined by `/` are the blob name. -/
def azureParseUrl (url : Str) : Except Str AzureParsed :=
  match parseHttpsUrl url with
  | .error e => .error (str "Failed to parse Azure URL: " ++ e)
  | .ok (host, path) =>
    let accountName := (charSplit dot host).headD []
    let parts := (charSplit slash path).filter (fun p => p ≠ [])
    let containerName := parts.headD []
    let blobName := joinSep slash (parts.drop 1)
    .ok ⟨accountName, containerName, blobName,
      str "https://" ++ accountName ++ str ".blob.core.windows.net",
      slash :: (containerName ++ slash :: blobName)⟩

/-- The permanent address a block-blob client exposes:
`https://{account}.blob.core.windows.net/{container}/{blob}`. -/
def azureBuildUrl (account container blob : Str) : Str :=
  str "https://" ++ account ++ str ".blob.core.windows.net/" ++
    container ++ slash :: blob

/-- The process environment (`process.env`), an external input. -/
abbrev EnvVars := Str → Option Str

/-- One environment block of `config/platform-config.js` (fields the source
never sets in a given block are `none`). -/
structure PlatformEnvCfg where
  apiKey : Option Str
  provider : Str
  connectionString : Option Str
  accountName : Option Str
  accountKey : Option Str
  accessKeyId : Option Str
  secretAccessKey : Option Str
  region : Option Str
  bucketName : Option Str
deriving DecidableEq

/-- The record `getPlatformConfig` returns: `{platformName, ...envConfig}`. -/
structure PlatformCfg where
  platformName : Str
  apiKey : Option Str
  provider : Str
  connectionString : Option Str
  accountName : Option Str
  accountKey : Option Str
  accessKeyId : Option Str
  secretAccessKey : Option Str
  region : Option Str
  bucketName : Option Str
deriving DecidableEq

/-- Environments of the `onedigital` platform (uat and preprod on azure,
prod on s3 with the literal region `ap-south-1` and a configured bucket). -/
def onedigitalEnvs (envv : EnvVars) (e : Str) : Option PlatformEnvCfg :=
  if e = str "uat" then
    some ⟨envv (str "ONEDIGITAL_UAT_API_KEY"), str "azure",
      envv (str "ONEDIGITAL_UAT_CONNECTION_STRING"),
      envv (str "ONEDIGITAL_UAT_ACCOUNT_NAME"),
      envv (str "ONEDIGITAL_UAT_ACCOUNT_KEY"), none, none, none, none⟩
  else if e = str "preprod" then
    some ⟨envv (str "ONEDIGITAL_PREPROD_API_KEY"), str "azure",
      envv (str "ONEDIGITAL_PREPROD_CONNECTION_STRING"),
      envv (str "ONEDIGITAL_PREPROD_ACCOUNT_NAME"),
      envv (str "ONEDIGITAL_PREPROD_ACCOUNT_KEY"), none, none, none, none⟩
  else if e = str "prod" then
    some ⟨envv (str "ONEDIGITAL_PROD_API_KEY"), str "s3", none, none, none,
      envv (str "ONEDIGITAL_PROD_AWS_ACCESS_KEY"),
      envv (str "ONEDIGITAL_PROD_AWS_SECRET_KEY"),
      some (str "ap-south-1"),
      envv (str "ONEDIGITAL_PROD_BUCKET_NAME")⟩
  else none

/-- Environments of the `invictus` platform (all on s3; the region falls back
to `ap-south-1` when the corresponding variable is falsy). -/
def invictusEnvs (envv : EnvVars) (e : Str) : Option PlatformEnvCfg :=
  if e = str "uat" then
    some ⟨envv (str "INVICTUS_UAT_API_KEY"), str "s3", none, none, none,
      envv (str "INVICTUS_UAT_AWS_ACCESS_KEY"),
      envv (str "INVICTUS_UAT_AWS_SECRET_KEY"),
      some (jsOrStr (envv (str "INVICTUS_UAT_AWS_REGION")) (str "ap-south-1")),
      none⟩
  else if e = str "preprod" then
    some ⟨envv (str "INVICTUS_PREPROD_API_KEY"), str "s3", none, none, none,
      envv (str "INVICTUS_PREPROD_AWS_ACCESS_KEY"),
      envv (str "INVICTUS_PREPROD_AWS_SECRET_KEY"),
      some (jsOrStr (envv (str "INVICTUS_PREPROD_AWS_REGION")) (str "ap-south-1")),
      none⟩
  else if e = str "prod" then
    some ⟨envv (str "INVICTUS_PROD_API_KEY"), str "s3", none, none, none,
      envv (str "INVICTUS_PROD_AWS_ACCESS_KEY"),
      envv (str "INVICTUS_PROD_AWS_SECRET_KEY"),
      some (jsOrStr (envv (str "INVICTUS_PROD_AWS_REGION")) (str "ap-south-1")),
      none⟩
  else none

/-- Environments of the `brokerage` platform (all on azure). -/
def brokerageEnvs (envv : EnvVars) (e : Str) : Option PlatformEnvCfg :=
  if e = str "uat" then
    some ⟨envv (str "BROKERAGE_UAT_API_KEY"), str "azure",
      envv (str "BROKERAGE_UAT_CONNECTION_STRING"),
      envv (str "BROKERAGE_UAT_ACCOUNT_NAME"),
      envv (str "BROKERAGE_UAT_ACCOUNT_KEY"), none, none, none, none⟩
  else if e = str "preprod" then
    some ⟨envv (str "BROKERAGE_PREPROD_API_KEY"), str "azure",
      envv (str "BROKERAGE_PREPROD_CONNECTION_STRING"),
      envv (str "BROKERAGE_PREPROD_ACCOUNT_NAME"),
      envv (str "BROKERAGE_PREPROD_ACCOUNT_KEY"), none, none, none, none⟩
  else if e = str "prod" then
    some ⟨envv (str "BROKERAGE_PROD_API_KEY"), str "azure",
      envv (str "BROKERAGE_PROD_CONNECTION_STRING"),
      envv (str "BROKERAGE_PROD_ACCOUNT_NAME"),
      envv (str "BROKERAGE_PROD_ACCOUNT_KEY"), none, none, none, none⟩
  else none

/-- Error text `Platform '{platformId}' not found`. -/
def platformNotFoundMsg (platformId : Str) : Str :=
  str "Platform " ++ aposS ++ platformId ++ aposS ++ str " not found"

/-- Error text `Environment '{environment}' not found for platform
'{platformId}'`. -/
def envNotFoundMsg (environment platformId : Str) : Str :=
  str "Environment " ++ aposS ++ environment ++ aposS ++
    str " not found for platform " ++ aposS ++ platformId ++ aposS

/-- Builds the `{platformName, ...envConfig}` record. -/
def mkPlatformCfg (name : Str) (c : PlatformEnvCfg) : PlatformCfg :=
  ⟨name, c.apiKey, c.provider, c.connectionString, c.accountName,
    c.accountKey, c.accessKeyId, c.secretAccessKey, c.region, c.bucketName⟩

/-- `platformConfig.getPlatformConfig`: exact (case-sensitive) platform lookup,
then exact environment lookup, with distinct error messages. -/
def getPlatformConfig (envv : EnvVars) (platformId environment : Str) :
    Except Str PlatformCfg :=
  if platformId = str "onedigital" then
    match onedigitalEnvs envv environment with
    | some c => .ok (mkPlatformCfg (str "OneDigital") c)
    | none => .error (envNotFoundMsg environment platformId)
  else if platformId = str "invictus" then
    match invictusEnvs envv environment with
    | some c => .ok (mkPlatformCfg (str "Invictus") c)
    | none => .error (envNotFoundMsg environment platformId)
  else if platformId = str "brokerage" then
    match brokerageEnvs envv environment with
    | some c => .ok (mkPlatformCfg (str "Brokerage") c)
    | none => .error (envNotFoundMsg environment platformId)
  else .error (platformNotFoundMsg platformId)

/-- Model of the regex capture `AccountName=([^;]+)` (and the analogous key
capture): find the leftmost occurrence of the literal pattern followed by at
least one non-semicolon character; capture up to the next semicolon.  A match
position whose capture would be empty is skipped, as the regex engine does. -/
def findCapture (pat : Str) : Str → Option Str
  | [] => none
  | c :: tl =>
    if pat.isPrefixOf (c :: tl) then
      let cap := ((c :: tl).drop pat.length).takeWhile (· ≠ semi)
      if cap = [] then findCapture pat tl else some cap
    else findCapture pat tl

/-- `AzureStorageProvider.extractAccountName`. -/
def extractAccountName (cs : Str) : Except Str Str :=
  match findCapture (str "AccountName=") cs with
  | some v => .ok v
  | none => .error (str "Could not extract AccountName from connection string")

/-- `AzureStorageProvider.extractAccountKey`. -/
def extractAccountKey (cs : Str) : Except Str Str :=
  match findCapture (str "AccountKey=") cs with
  | some v => .ok v
  | none => .error (str "Could not extract AccountKey from connection string")

/-- A constructed backend adapter.  `id` is the construction number assigned
by the routing layer model (it stands for the object identity a `new`
expression creates: two adapters built by distinct factory invocations are
distinct). -/
structure Provider where
  kind : Str
  cfg : PlatformCfg
  accountName : Option Str
  accountKey : Option Str
  id : Nat
deriving DecidableEq

/-- `getProviderName()`: `s3` for the S3 adapter, `azure` for the Azure one. -/
def Provider.getProviderName (p : Provider) : Str := p.kind

/-- `AWSS3StorageProvider` construction: access key, secret and region must
all be truthy. -/
def createAwsProvider (cfg : PlatformCfg) (id : Nat) : Except Str Provider :=
  if jsTruthyOpt cfg.accessKeyId && jsTruthyOpt cfg.secretAccessKey &&
      jsTruthyOpt cfg.region then
    .ok ⟨str "s3", cfg, none, none, id⟩
  else .error (str "AWS credentials and region are required")

/-- `AzureStorageProvider` construction: either a truthy connection string
(account name and key are extracted from it, each extraction can fail) or
truthy explicit account name and key. -/
def createAzureProvider (cfg : PlatformCfg) (id : Nat) : Except Str Provider :=
  if !jsTruthyOpt cfg.connectionString &&
      (!jsTruthyOpt cfg.accountName || !jsTruthyOpt cfg.accountKey) then
    .error (str "Azure connection string or account credentials required")
  else if jsTruthyOpt cfg.connectionString then
    match extractAccountName (jsStrOfOpt cfg.connectionString) with
    | .error e => .error e
    | .ok an =>
      match extractAccountKey (jsStrOfOpt cfg.connectionString) with
      | .error e => .error e
      | .ok ak => .ok ⟨str "azure", cfg, some an, some ak, id⟩
  else .ok ⟨str "azure", cfg, cfg.accountName, cfg.accountKey, id⟩

/-- `StorageProviderFactory.createProvider`: case-insensitive kind match,
`azure` or `aws`/`s3`, anything else is an unsupported-provider error. -/
def createProvider (providerType : Str) (cfg : PlatformCfg) (id : Nat) :
    Except Str Provider :=
  let t := lowerStr providerType
  if t = str "azure" then createAzureProvider cfg id
  else if t = str "aws" then createAwsProvider cfg id
  else if t = str "s3" then createAwsProvider cfg id
  else .error (str "Unsupported storage provider: " ++ providerType)

/-- State of a `MultiTenantStorageService` instance: the provider cache plus
two instrumentation counters (number of registry lookups performed and number
of factory invocations) used to state the caching claims. -/
structure ServiceState where
  providerCache : List (Str × Provider)
  configLookups : Nat
  factoryCalls : Nat
deriving DecidableEq

/-- A freshly constructed service (empty cache). -/
def initService : ServiceState := ⟨[], 0, 0⟩

/-- The cache key `"{platformId}-{environment}"`. -/
def cacheKey (platformId environment : Str) : Str :=
  platformId ++ hyph :: environment

/-- `Map.has` / `Map.get` on the provider cache. -/
def cacheLookup (cache : List (Str × Provider)) (k : Str) : Option Provider :=
  (cache.find? (fun p => p.1 = k)).map (·.2)

/-- `MultiTenantStorageService.getStorageProvider`: return the cached adapter
when the key is present; otherwise look up the tenant configuration, invoke
the factory, cache the result under the key and return it.  Both the registry
lookup and the factory call are counted. -/
def getStorageProvider (envv : EnvVars) (s : ServiceState)
    (platformId environment : Str) : Except Str Provider × ServiceState :=
  let ck := cacheKey platformId environment
  match cacheLookup s.providerCache ck with
  | some p => (.ok p, s)
  | none =>
    match getPlatformConfig envv platformId environment with
    | .error m => (.error m, { s with configLookups := s.configLookups + 1 })
    | .ok cfg =>
      match createProvider cfg.provider cfg s.factoryCalls with
      | .error m =>
        (.error m, { s with configLookups := s.configLookups + 1,
                            factoryCalls := s.factoryCalls + 1 })
      | .ok p =>
        (.ok p, ⟨s.providerCache ++ [(ck, p)], s.configLookups + 1,
                 s.factoryCalls + 1⟩)

/-- The metadata enrichment `MultiTenantStorageService.uploadFile` performs
before delegating: `{platformId, environment, provider, ...metadata}` — the
spread comes last, so caller-supplied keys override every enriched key. -/
def enrichMetadata (platformId environment providerName : Str)
    (metadata : JsObj) : JsObj :=
  objMerge [(str "platformId", .vstr platformId),
            (str "environment", .vstr environment),
            (str "provider", .vstr providerName)] metadata

/-- `metadata.platformId` as the property-lookup key it becomes inside
`getPlatformConfig` (an absent property reads as `undefined`). -/
def metaPlatformId (m : JsObj) : Str :=
  match objGet m (str "platformId") with
  | some v => jsString v
  | none => str "undefined"

/-- `metadata.environment`, as above. -/
def metaEnvironment (m : JsObj) : Str :=
  match objGet m (str "environment") with
  | some v => jsString v
  | none => str "undefined"

/-- The S3 adapter metadata conversion loop:
`Object.keys(metadata).forEach(key => awsMetadata[key] = String(metadata[key]))`. -/
def awsStringify (m : JsObj) : JsObj :=
  m.foldl (fun acc p => objSet acc p.1 (.vstr (jsString p.2))) []

/-- The metadata map the S3 adapter attaches: every caller value coerced with
`String(...)`, then `uploadedAt`, `provider` and `access` stamped on top. -/
def awsFinalMeta (now : Str) (m : JsObj) (access : Str) : JsObj :=
  objSet (objSet (objSet (awsStringify m)
    (str "uploadedAt") (.vstr now))
    (str "provider") (.vstr (str "s3")))
    (str "access") (.vstr access)

/-- The metadata map the Azure adapter attaches:
`{uploadedAt: ..., provider: "azure", ...metadata}` — the caller spread comes
last and therefore overrides the two stamps. -/
def azureFinalMeta (now : Str) (m : JsObj) : JsObj :=
  objMerge [(str "uploadedAt", .vstr now),
            (str "provider", .vstr (str "azure"))] m

/-- A stored S3 object (body, attached metadata, object-level public ACL). -/
structure AwsObj where
  body : Str
  meta : JsObj
  publicAcl : Bool
deriving DecidableEq

/-- The S3 backend world: existing buckets with their bucket-ACL visibility,
stored objects keyed by (bucket, key), the log of issued delete calls, the
number of presigning calls, and an injectable backend fault for deletes. -/
structure AwsWorld where
  buckets : List (Str × Bool)
  objects : List ((Str × Str) × AwsObj)
  deleteCalls : List (Str × Str)
  sigCalls : Nat
  deleteFault : Option Str
deriving DecidableEq

/-- Bucket lookup (`HeadBucket` succeeds exactly on listed buckets). -/
def bucketLookup (bs : List (Str × Bool)) (n : Str) : Option Bool :=
  (bs.find? (fun p => p.1 = n)).map (·.2)

/-- Stored-object lookup (`HeadObject`). -/
def objLookup (w : AwsWorld) (bucket key : Str) : Option AwsObj :=
  (w.objects.find? (fun p => p.1 = (bucket, key))).map (·.2)

/-- `PutObject`: overwrite semantics. -/
def objInsert (os : List ((Str × Str) × AwsObj)) (bucket key : Str)
    (o : AwsObj) : List ((Str × Str) × AwsObj) :=
  os.filter (fun p => p.1 ≠ (bucket, key)) ++ [((bucket, key), o)]

/-- `AWSS3StorageProvider.isObjectPublic`: object ACL check, any lookup error
folds to `false`. -/
def awsIsObjectPublic (w : AwsWorld) (bucket key : Str) : Bool :=
  match objLookup w bucket key with
  | some o => o.publicAcl
  | none => false

/-- `AWSS3StorageProvider.isBucketPublic`: bucket ACL check, errors fold to
`false`. -/
def awsIsBucketPublic (w : AwsWorld) (bucket : Str) : Bool :=
  (bucketLookup w.buckets bucket).getD false

/-- The object key the S3 adapter computes: `prefixValue` is
`{bucketName}/{prefix}` (or `bucketName` for a falsy prefix) and the key is
`{prefixValue}/{fileName}` (or `fileName` for a falsy `prefixValue`). -/
def awsKeyOf (bucketName pfx fileName : Str) : Str :=
  let prefixValue := if pfx ≠ [] then bucketName ++ slash :: pfx else bucketName
  if prefixValue ≠ [] then prefixValue ++ slash :: fileName else fileName

/-- `AWSS3StorageProvider.uploadFile`: resolve the physical bucket from the
tenant configuration named inside the metadata, require that it exists (no
access-level validation — that code is commented out in the source), attach
the coerced and stamped metadata, write the object with a public-read ACL
exactly when `access = "public"`, and return the permanent address. -/
def awsUploadFile (envv : EnvVars) (now region : Str) (w : AwsWorld)
    (bucketName fileData pfx fileName : Str) (metadata : JsObj)
    (access : Str) : Except Str Str × AwsWorld :=
  match getPlatformConfig envv (metaPlatformId metadata)
      (metaEnvironment metadata) with
  | .error m => (.error (str "S3 upload failed: " ++ m), w)
  | .ok cfg =>
    let bucketNameValue := jsStrOfOpt cfg.bucketName
    match bucketLookup w.buckets bucketNameValue with
    | none =>
      (.error (str "S3 upload failed: Bucket " ++ bucketNameValue ++
        str " does not exist.Please Create the bucket first."), w)
    | some _ =>
      let key := awsKeyOf bucketName pfx fileName
      let obj : AwsObj := ⟨fileData, awsFinalMeta now metadata access,
        decide (access = str "public")⟩
      (.ok (awsBuildUrl region bucketNameValue key),
       { w with objects := objInsert w.objects bucketNameValue key obj })

/-- `AWSS3StorageProvider.fileExists`: parse errors are rethrown (their name
is not `NotFound`), a missing object folds to `false`. -/
def awsFileExistsE (region : Str) (w : AwsWorld) (url : Str) :
    Except Str Bool :=
  match awsParseUrl region url with
  | .error m => .error m
  | .ok p => .ok (objLookup w p.bucketName p.key).isSome

/-- Result record of `generateDownloadUrl` for both adapters.  `expiresAtMs`
carries the absolute expiry instant in milliseconds (the source renders it as
an ISO-8601 string; the rendering is not modelled). -/
structure DlResult where
  downloadUrl : Str
  isPublic : Bool
  requiresSAS : Bool
  expiresIn : Option Int
  expiresAtMs : Option Int
  fileName : Str
deriving DecidableEq

/-- `key.split("/").pop()`. -/
def lastSeg (k : Str) : Str := (charSplit slash k).getLastD []

/-- `AWSS3StorageProvider.generateDownloadUrl`: parse, mandatory existence
check (failing with `File not found`), object-ACL visibility check; a public
object returns the permanent URL unsigned, a private one gets a presigned URL
for `expiryMinutes || 60` minutes.  The presigner is abstracted to a
deterministic URL and a signing-call counter. -/
def awsGenerateDownloadUrl (region : Str) (nowMs : Int) (w : AwsWorld)
    (url : Str) (expiryMinutes : Option Int) : Except Str DlResult × AwsWorld :=
  match awsParseUrl region url with
  | .error m => (.error (str "S3 download URL generation failed: " ++ m), w)
  | .ok p =>
    match awsFileExistsE region w url with
    | .error m => (.error (str "S3 download URL generation failed: " ++ m), w)
    | .ok false =>
      (.error (str "S3 download URL generation failed: File not found"), w)
    | .ok true =>
      if awsIsObjectPublic w p.bucketName p.key then
        (.ok ⟨url, true, false, none, none, lastSeg p.key⟩, w)
      else
        let em := jsOrNum expiryMinutes 60
        let expiresIn := em * 60
        (.ok ⟨url ++ str "?X-Amz-Expires=" ++ intToStr expiresIn, false, true,
          some expiresIn, some (nowMs + expiresIn * 1000), lastSeg p.key⟩,
         { w with sigCalls := w.sigCalls + 1 })

/-- `AWSS3StorageProvider.deleteFile`: parse the URL, issue the backend
delete (recorded in the call log), return `true` unless the backend faults,
in which case the wrapped error is thrown. -/
def awsDeleteFile (region : Str) (w : AwsWorld) (url : Str) :
    Except Str Bool × AwsWorld :=
  match awsParseUrl region url with
  | .error m => (.error (str "S3 delete failed: " ++ m), w)
  | .ok p =>
    let wl := { w with deleteCalls := w.deleteCalls ++ [(p.bucketName, p.key)] }
    match w.deleteFault with
    | some m => (.error (str "S3 delete failed: " ++ m), wl)
    | none =>
      (.ok true, { wl with
        objects := wl.objects.filter (fun o => o.1 ≠ (p.bucketName, p.key)) })

/-- `AWSS3StorageProvider.deleteFileByBucketKey`: the physical bucket comes
from the tenant configuration; a falsy `key` folds into the caller container
name acting as the whole key (`key ? bucketName + "/" + key : bucketName`). -/
def awsDeleteFileByBucketKey (envv : EnvVars) (w : AwsWorld)
    (bucketName key : Str) (metadata : JsObj) : Except Str Bool × AwsWorld :=
  match getPlatformConfig envv (metaPlatformId metadata)
      (metaEnvironment metadata) with
  | .error m => (.error (str "S3 delete by bucket key failed: " ++ m), w)
  | .ok cfg =>
    let bucketNameValue := jsStrOfOpt cfg.bucketName
    let keyValue := if key ≠ [] then bucketName ++ slash :: key else bucketName
    let wl := { w with
      deleteCalls := w.deleteCalls ++ [(bucketNameValue, keyValue)] }
    match w.deleteFault with
    | some m => (.error (str "S3 delete by bucket key failed: " ++ m), wl)
    | none =>
      (.ok true, { wl with
        objects := wl.objects.filter (fun o => o.1 ≠ (bucketNameValue, keyValue)) })

/-- A stored Azure blob (body and attached metadata). -/
structure AzureBlob where
  body : Str
  meta : JsObj
deriving DecidableEq

/-- The Azure backend world: containers with their public-access flag, blobs
keyed by (container, blob name), the delete-call log, the SAS signing counter
and an injectable backend fault for deletes. -/
structure AzureWorld where
  containers : List (Str × Bool)
  blobs : List ((Str × Str) × AzureBlob)
  deleteCalls : List (Str × Str)
  sigCalls : Nat
  deleteFault : Option Str
deriving DecidableEq

/-- Container lookup (`containerClient.exists` / `getProperties`). -/
def containerLookup (cs : List (Str × Bool)) (n : Str) : Option Bool :=
  (cs.find? (fun p => p.1 = n)).map (·.2)

/-- Blob lookup (`blockBlobClient.exists` / `getProperties`). -/
def blobLookup (w : AzureWorld) (container blob : Str) : Option AzureBlob :=
  (w.blobs.find? (fun p => p.1 = (container, blob))).map (·.2)

/-- `blockBlobClient.upload`: overwrite semantics. -/
def blobInsert (bs : List ((Str × Str) × AzureBlob)) (container blob : Str)
    (b : AzureBlob) : List ((Str × Str) × AzureBlob) :=
  bs.filter (fun p => p.1 ≠ (container, blob)) ++ [((container, blob), b)]

/-- `AzureStorageProvider.isContainerPublic`: public when the container
properties report blob- or container-level public access; any lookup error
folds to `false`. -/
def azureIsContainerPublic (w : AzureWorld) (container : Str) : Bool :=
  (containerLookup w.containers container).getD false

/-- The blob path the Azure adapter computes:
`prefix ? prefix + "/" + fileName : fileName`. -/
def azureBlobPath (pfx fileName : Str) : Str :=
  if pfx ≠ [] then pfx ++ slash :: fileName else fileName

/-- Error text of the Azure access-mismatch rejection. -/
def accessMismatchMsg (container current requested : Str) : Str :=
  str "Container " ++ container ++ str " access mismatch: currently " ++
    current ++ str ", requested " ++ requested

/-- `AzureStorageProvider.uploadFile`: the caller container is physical — it
is created on demand (its access level fixed from the request at creation
time; `create()` then `setAccessPolicy("blob")` when public access was
requested); when it already exists, a request whose access level differs from
the container level is rejected before anything is written.  On the success
path the blob is stored with `{uploadedAt, provider, ...metadata}`. -/
def azureUploadFile (now account : Str) (w : AzureWorld)
    (bucketName fileData pfx fileName : Str) (metadata : JsObj)
    (access : Str) : Except Str Str × AzureWorld :=
  match containerLookup w.containers bucketName with
  | none =>
    let w1 := { w with
      containers := w.containers ++ [(bucketName, decide (access = str "public"))] }
    let blobPath := azureBlobPath pfx fileName
    let nb := blobInsert w1.blobs bucketName blobPath ⟨fileData, azureFinalMeta now metadata⟩
    (.ok (azureBuildUrl account bucketName blobPath), { w1 with blobs := nb })
  | some _ =>
    let isPub := azureIsContainerPublic w bucketName
    let containerAccess := if isPub then str "public" else str "private"
    if containerAccess ≠ access then
      (.error (str "Azure upload failed: " ++
        accessMismatchMsg bucketName containerAccess access), w)
    else
      let blobPath := azureBlobPath pfx fileName
      let nb := blobInsert w.blobs bucketName blobPath ⟨fileData, azureFinalMeta now metadata⟩
      (.ok (azureBuildUrl account bucketName blobPath), { w with blobs := nb })

/-- `AzureStorageProvider.fileExists`: every failure (including a URL parse
failure) folds to `false`. -/
def azureFileExistsB (w : AzureWorld) (url : Str) : Bool :=
  match azureParseUrl url with
  | .error _ => false
  | .ok p => (blobLookup w p.containerName p.blobName).isSome

/-- Stand-in for `generateBlobSASQueryParameters(...).toString()`: a
deterministic token over the signed tuple (the HMAC itself is external). -/
def sasTokenModel (containerName blobName : Str) (startMs endMs : Int) : Str :=
  str "sv=2021-06-08&st=" ++ intToStr startMs ++ str "&se=" ++
    intToStr endMs ++ str "&sp=r&sig=" ++ containerName ++ slash :: blobName

/-- `AzureStorageProvider.generateDownloadUrl`: parse, mandatory existence
check (`File not found`), container-level visibility check; a public
container returns the permanent URL unsigned, otherwise a SAS token valid
from five minutes before now until `expiryMinutes || 60` minutes from now is
appended (one signing call counted). -/
def azureGenerateDownloadUrl (nowMs : Int) (w : AzureWorld) (url : Str)
    (expiryMinutes : Option Int) : Except Str DlResult × AzureWorld :=
  match azureParseUrl url with
  | .error m => (.error (str "Azure SAS generation failed: " ++ m), w)
  | .ok p =>
    if !azureFileExistsB w url then
      (.error (str "Azure SAS generation failed: File not found"), w)
    else if azureIsContainerPublic w p.containerName then
      (.ok ⟨url, true, false, none, none, lastSeg p.blobName⟩, w)
    else
      let em := jsOrNum expiryMinutes 60
      let startsOn := nowMs - 5 * 60000
      let expiresOn := nowMs + em * 60000
      let tok := sasTokenModel p.containerName p.blobName startsOn expiresOn
      (.ok ⟨url ++ Char.ofNat 63 :: tok, false, true, some (em * 60),
        some expiresOn, lastSeg p.blobName⟩,
       { w with sigCalls := w.sigCalls + 1 })

/-- `AzureStorageProvider.deleteFile`: parse the URL, issue the backend
delete (recorded), return `true` unless the backend faults. -/
def azureDeleteFile (w : AzureWorld) (url : Str) :
    Except Str Bool × AzureWorld :=
  match azureParseUrl url with
  | .error m => (.error (str "Azure delete failed: " ++ m), w)
  | .ok p =>
    let wl := { w with
      deleteCalls := w.deleteCalls ++ [(p.containerName, p.blobName)] }
    match w.deleteFault with
    | some m => (.error (str "Azure delete failed: " ++ m), wl)
    | none =>
      let nb := wl.blobs.filter (fun b => b.1 ≠ (p.containerName, p.blobName))
      (.ok true, { wl with blobs := nb })

/-- `AzureStorageProvider.deleteFileByBucketKey`: the given (container, blob)
pair is addressed exactly as passed — an empty blob name is not folded into
the container name.  The `metadata` parameter is accepted and unused, as in
the source. -/
def azureDeleteFileByBucketKey (w : AzureWorld) (containerName blobName : Str)
    (metadata : JsObj) : Except Str Bool × AzureWorld :=
  let _ := metadata
  let wl := { w with
    deleteCalls := w.deleteCalls ++ [(containerName, blobName)] }
  match w.deleteFault with
  | some m => (.error (str "Azure delete by bucket key failed: " ++ m), wl)
  | none =>
    let nb := wl.blobs.filter (fun b => b.1 ≠ (containerName, blobName))
    (.ok true, { wl with blobs := nb })

/-- A concrete process environment for the concrete-instance theorems: every
variable is set; the onedigital prod bucket name is `physbucket`, everything
else reads as a well-formed Azure connection string. -/
def envW : EnvVars := fun v =>
  if v = str "ONEDIGITAL_PROD_BUCKET_NAME" then some (str "physbucket")
  else some (str "AccountName=acct;AccountKey=key1")

/-- Metadata identifying the onedigital/prod tenant, as the routing layer
injects it. -/
def metaProd : JsObj :=
  [(str "platformId", .vstr (str "onedigital")),
   (str "environment", .vstr (str "prod"))]

/-- S3 world: the configured physical bucket exists and its bucket ACL is
public; no objects. -/
def awsW0 : AwsWorld := ⟨[(str "physbucket", true)], [], [], 0, none⟩

/-- Azure world: container `docs` exists and is private; no blobs. -/
def azW0 : AzureWorld := ⟨[(str "docs", false)], [], [], 0, none⟩

/-- Azure world: container `docs` exists and is public; no blobs. -/
def azW1 : AzureWorld := ⟨[(str "docs", true)], [], [], 0, none⟩

/-- Azure world with one private container and one stored blob. -/
def azW2 : AzureWorld :=
  ⟨[(str "docs", false)],
   [((str "docs", str "a/f.txt"), ⟨str "data", []⟩)], [], 0, none⟩

/-- S3 world with one bucket (private ACL) and one stored private object. -/
def awsW1 : AwsWorld :=
  ⟨[(str "physbucket", false)],
   [((str "physbucket", str "docs/a/f.txt"), ⟨str "data", [], false⟩)],
   [], 0, none⟩

/-- Extract the success value of an `Except` (with a default). -/
def exOk {α : Type} (d : α) : Except Str α → α
  | .ok a => a
  | .error _ => d

/-- Placeholder provider used only as an `exOk` default. -/
def provDefault : Provider :=
  ⟨[], ⟨[], none, [], none, none, none, none, none, none, none⟩, none, none, 0⟩

/-- Service state after a first resolution of (onedigital, uat). -/
def c1s1 : ServiceState :=
  (getStorageProvider envW initService (str "onedigital") (str "uat")).2

/-- The adapter created by that first resolution. -/
def c1prov : Provider :=
  exOk provDefault
    (getStorageProvider envW initService (str "onedigital") (str "uat")).1

/-- Service state after a subsequent resolution of (invictus, uat). -/
def c1s2 : ServiceState :=
  (getStorageProvider envW c1s1 (str "invictus") (str "uat")).2

/-- The adapter returned for (invictus, uat). -/
def c1prov2 : Provider :=
  exOk provDefault (getStorageProvider envW c1s1 (str "invictus") (str "uat")).1

/-- Default configuration record (only an `exOk` fallback). -/
def cfgDefault : PlatformCfg := provDefault.cfg

/-- Caller metadata with the tenant context plus one numeric value. -/
def c2meta : JsObj :=
  [(str "platformId", .vstr (str "onedigital")),
   (str "environment", .vstr (str "prod")),
   (str "answer", .vnum 42)]

/-- The onedigital/prod configuration under `envW`. -/
def c2cfg : PlatformCfg :=
  exOk cfgDefault (getPlatformConfig envW (str "onedigital") (str "prod"))

/-- A concrete S3 upload of `c2meta`. -/
def c2awsRun : Except Str Str × AwsWorld :=
  awsUploadFile envW (str "T0") (str "ap-south-1") awsW0 (str "docs")
    (str "data") [] (str "f.txt") c2meta (str "private")

/-- A concrete Azure upload of `c2meta`. -/
def c2azRun : Except Str Str × AzureWorld :=
  azureUploadFile (str "T0") (str "acct") azW0 (str "docs") (str "data") []
    (str "f.txt") c2meta (str "private")

/-- Caller metadata that tries to override the reserved `provider` key. -/
def c3meta : JsObj := [(str "provider", .vstr (str "evil"))]

/-- A concrete Azure upload of `c3meta`. -/
def c3azRun : Except Str Str × AzureWorld :=
  azureUploadFile (str "T0") (str "acct") azW0 (str "docs") (str "data") []
    (str "f.txt") c3meta (str "private")

/-- A concrete S3 upload requesting `private` against the pre-existing
public bucket `physbucket` (access conflict). -/
def c4awsRun : Except Str Str × AwsWorld :=
  awsUploadFile envW (str "T0") (str "ap-south-1") awsW0 (str "docs")
    (str "data") [] (str "f.txt") metaProd (str "private")

/-- Permanent S3 address of an object that does not exist in `awsW0`. -/
def c5urlA : Str :=
  awsBuildUrl (str "ap-south-1") (str "physbucket") (str "docs/x.txt")

/-- Its parse result. -/
def c5pA : AwsParsed :=
  exOk ⟨[], [], [], [], []⟩ (awsParseUrl (str "ap-south-1") c5urlA)

/-- Permanent Azure address of a blob that does not exist in `azW0`. -/
def c5urlZ : Str := azureBuildUrl (str "acct") (str "docs") (str "x.txt")

/-- Its parse result. -/
def c5pZ : AzureParsed := exOk ⟨[], [], [], [], []⟩ (azureParseUrl c5urlZ)

/-- Permanent address of the private object stored in `awsW1`. -/
def c9urlA : Str :=
  awsBuildUrl (str "ap-south-1") (str "physbucket") (str "docs/a/f.txt")

/-- Its parse result. -/
def c9pA : AwsParsed :=
  exOk ⟨[], [], [], [], []⟩ (awsParseUrl (str "ap-south-1") c9urlA)

/-- Permanent address of the private blob stored in `azW2`. -/
def c9urlZ : Str := azureBuildUrl (str "acct") (str "docs") (str "a/f.txt")

/-- Its parse result. -/
def c9pZ : AzureParsed := exOk ⟨[], [], [], [], []⟩ (azureParseUrl c9urlZ)

theorem objGet_objSet_self (o : JsObj) (k : Str) (v : JsVal) :
    objGet (objSet o k v) k = some v := by
  induction o with
  | nil => simp [objGet, objSet]
  | cons p t ih =>
    by_cases hp : p.1 = k
    · simpa [objGet, objSet, List.filter_cons, hp] using ih
    · simpa [objGet, objSet, List.filter_cons, hp] using ih

theorem objGet_objSet_ne (o : JsObj) (k k' : Str) (v : JsVal)
    (h : k' ≠ k) : objGet (objSet o k v) k' = objGet o k' := by
  induction o with
  | nil => simp [objGet, objSet, Ne.symm h]
  | cons p t ih =>
    by_cases hp : p.1 = k
    · have hq : ¬ p.1 = k' := by rw [hp]; exact Ne.symm h
      simpa [objGet, objSet, List.filter_cons, hp, hq, h, Ne.symm h] using ih
    · by_cases hq : p.1 = k'
      · simp [objGet, objSet, List.filter_cons, hp, hq, h, Ne.symm h]
      · simpa [objGet, objSet, List.filter_cons, hp, hq, h, Ne.symm h] using ih

theorem objGet_none_of_notmem (o : JsObj) (k : Str)
    (h : k ∉ o.map Prod.fst) : objGet o k = none := by
  induction o with
  | nil => rfl
  | cons p t ih =>
    have h1 : ¬ p.1 = k := fun hh => h (by simp [hh])
    simpa [objGet, h1] using ih (fun hh => h (by simp [hh]))

theorem objGet_merge_notmem (o1 o2 : JsObj) (k : Str)
    (h : k ∉ o2.map Prod.fst) : objGet (objMerge o1 o2) k = objGet o1 k := by
  induction o2 generalizing o1 with
  | nil => rfl
  | cons p t ih =>
    have h1 : ¬ p.1 = k := fun hh => h (by simp [hh])
    have h2 : k ∉ t.map Prod.fst := fun hh => h (by simp [hh])
    calc objGet (objMerge o1 (p :: t)) k
        = objGet (objMerge (objSet o1 p.1 p.2) t) k := rfl
      _ = objGet (objSet o1 p.1 p.2) k := ih _ h2
      _ = objGet o1 k := objGet_objSet_ne _ _ _ _ (fun hh => h1 hh.symm)

theorem objGet_merge_mem (o1 o2 : JsObj) (k : Str) (v : JsVal)
    (hnd : (o2.map Prod.fst).Nodup) (h : objGet o2 k = some v) :
    objGet (objMerge o1 o2) k = some v := by
  induction o2 generalizing o1 with
  | nil => simp [objGet] at h
  | cons p t ih =>
    have hnd' : p.1 ∉ t.map Prod.fst ∧ (t.map Prod.fst).Nodup := by
      rw [List.map_cons, List.nodup_cons] at hnd
      exact hnd
    have hnd1 := hnd'.1
    have hnd2 := hnd'.2
    by_cases hp : p.1 = k
    · have hv : v = p.2 := by
        simp [objGet, hp] at h; exact h.symm
      subst hv
      calc objGet (objMerge o1 (p :: t)) k
          = objGet (objMerge (objSet o1 p.1 p.2) t) k := rfl
        _ = objGet (objSet o1 p.1 p.2) k :=
            objGet_merge_notmem _ _ _ (by rw [← hp]; exact hnd1)
        _ = some p.2 := by rw [← hp]; exact objGet_objSet_self _ _ _
    · have h2 : objGet t k = some v := by simpa [objGet, hp] using h
      exact ih _ hnd2 h2

theorem objGet_stringify_notmem (m : JsObj) (acc : JsObj) (k : Str)
    (h : k ∉ m.map Prod.fst) :
    objGet (m.foldl (fun acc p => objSet acc p.1 (.vstr (jsString p.2))) acc) k
      = objGet acc k := by
  induction m generalizing acc with
  | nil => rfl
  | cons p t ih =>
    have h1 : ¬ p.1 = k := fun hh => h (by simp [hh])
    have h2 : k ∉ t.map Prod.fst := fun hh => h (by simp [hh])
    calc objGet ((p :: t).foldl (fun acc p => objSet acc p.1 (.vstr (jsString p.2))) acc) k
        = objGet (t.foldl (fun acc p => objSet acc p.1 (.vstr (jsString p.2)))
            (objSet acc p.1 (.vstr (jsString p.2)))) k := rfl
      _ = objGet (objSet acc p.1 (.vstr (jsString p.2))) k := ih _ h2
      _ = objGet acc k := objGet_objSet_ne _ _ _ _ (fun hh => h1 hh.symm)

theorem objGet_stringify_mem (m : JsObj) (acc : JsObj) (k : Str) (v : JsVal)
    (hnd : (m.map Prod.fst).Nodup) (h : objGet m k = some v) :
    objGet (m.foldl (fun acc p => objSet acc p.1 (.vstr (jsString p.2))) acc) k
      = some (.vstr (jsString v)) := by
  induction m generalizing acc with
  | nil => simp [objGet] at h
  | cons p t ih =>
    have hnd' : p.1 ∉ t.map Prod.fst ∧ (t.map Prod.fst).Nodup := by
      rw [List.map_cons, List.nodup_cons] at hnd
      exact hnd
    have hnd1 := hnd'.1
    have hnd2 := hnd'.2
    by_cases hp : p.1 = k
    · have hv : v = p.2 := by
        simp [objGet, hp] at h; exact h.symm
      subst hv
      calc objGet ((p :: t).foldl (fun acc p => objSet acc p.1 (.vstr (jsString p.2))) acc) k
          = objGet (t.foldl (fun acc p => objSet acc p.1 (.vstr (jsString p.2)))
              (objSet acc p.1 (.vstr (jsString p.2)))) k := rfl
        _ = objGet (objSet acc p.1 (.vstr (jsString p.2))) k :=
            objGet_stringify_notmem _ _ _ (by rw [← hp]; exact hnd1)
        _ = some (.vstr (jsString p.2)) := by
            rw [← hp]; exact objGet_objSet_self _ _ _
    · have h2 : objGet t k = some v := by simpa [objGet, hp] using h
      exact ih _ hnd2 h2

theorem takeWhile_append_stop (x : Char) (a b : Str)
    (h : ∀ c ∈ a, c ≠ x) :
    (a ++ x :: b).takeWhile (fun c => c ≠ x) = a := by
  induction a with
  | nil => simp [List.takeWhile]
  | cons c t ih =>
    have hc : c ≠ x := h c (by simp)
    simpa [List.takeWhile_cons, hc] using ih (fun d hd => h d (by simp [hd]))

theorem dropWhile_append_stop (x : Char) (a b : Str)
    (h : ∀ c ∈ a, c ≠ x) :
    (a ++ x :: b).dropWhile (fun c => c ≠ x) = x :: b := by
  induction a with
  | nil => simp [List.dropWhile]
  | cons c t ih =>
    have hc : c ≠ x := h c (by simp)
    simpa [List.dropWhile_cons, hc] using ih (fun d hd => h d (by simp [hd]))

theorem charSplit_ne_nil (sep : Char) (l : Str) : charSplit sep l ≠ [] := by
  cases l with
  | nil => simp [charSplit]
  | cons c cs =>
    by_cases h : c = sep
    · simp [charSplit, h]
    · simp only [charSplit, h, if_false]
      cases hr : charSplit sep cs <;> simp

theorem charSplit_append (sep : Char) (a b : Str) (h : sep ∉ a) :
    charSplit sep (a ++ sep :: b) = a :: charSplit sep b := by
  induction a with
  | nil => simp [charSplit]
  | cons c t ih =>
    have hc : ¬ c = sep := fun hh => h (by simp [hh])
    have ht : sep ∉ t := fun hh => h (by simp [hh])
    rw [List.cons_append]
    rw [show charSplit sep (c :: (t ++ sep :: b)) =
        (if c = sep then [] :: charSplit sep (t ++ sep :: b)
         else match charSplit sep (t ++ sep :: b) with
              | [] => [[c]]
              | h2 :: t2 => (c :: h2) :: t2) from rfl]
    rw [if_neg hc, ih ht]

theorem joinSep_cons_head (sep : Char) (c : Char) (h : Str) (t : List Str) :
    joinSep sep ((c :: h) :: t) = c :: joinSep sep (h :: t) := by
  cases t <;> simp [joinSep]

theorem joinSep_charSplit (sep : Char) (l : Str) :
    joinSep sep (charSplit sep l) = l := by
  induction l with
  | nil => simp [charSplit, joinSep]
  | cons c cs ih =>
    by_cases h : c = sep
    · subst h
      have hsplit : charSplit c (c :: cs) = [] :: charSplit c cs := by
        simp [charSplit]
      rw [hsplit]
      cases hr : charSplit c cs with
      | nil => exact absurd hr (charSplit_ne_nil c cs)
      | cons x xs =>
        have hj : joinSep c ([] :: x :: xs) = c :: joinSep c (x :: xs) := by
          simp [joinSep]
        rw [hj, ← hr, ih]
    · simp only [charSplit, h, if_false]
      cases hr : charSplit sep cs with
      | nil => exact absurd hr (charSplit_ne_nil sep cs)
      | cons x xs =>
        rw [joinSep_cons_head, ← hr, ih]

theorem normalizeDotSegments_id : ∀ (segs acc : List Str),
    (∀ s ∈ segs, s ≠ str "." ∧ s ≠ str "..") →
    normalizeDotSegments acc segs = acc ++ segs
  | [], acc, _ => by simp [normalizeDotSegments]
  | [s], acc, h => by
    have hs := h s (by simp)
    simp [normalizeDotSegments, hs.1, hs.2]
  | s :: t :: rest, acc, h => by
    have hs := h s (by simp)
    have ht : ∀ x ∈ t :: rest, x ≠ str "." ∧ x ≠ str ".." := by
      intro x hx
      exact h x (List.mem_cons_of_mem _ hx)
    rw [show normalizeDotSegments acc (s :: t :: rest) =
        (if s = str ".." then normalizeDotSegments acc.dropLast (t :: rest)
         else if s = str "." then normalizeDotSegments acc (t :: rest)
         else normalizeDotSegments (acc ++ [s]) (t :: rest)) from rfl]
    rw [if_neg hs.2, if_neg hs.1, normalizeDotSegments_id (t :: rest) (acc ++ [s]) ht]
    simp

theorem joinSep_cons_split (sep : Char) (a l : Str) :
    joinSep sep (a :: charSplit sep l) = a ++ sep :: l := by
  cases hr : charSplit sep l with
  | nil => exact absurd hr (charSplit_ne_nil sep l)
  | cons x xs =>
    have hstep : joinSep sep (a :: x :: xs) = a ++ sep :: joinSep sep (x :: xs) := by
      simp [joinSep]
    rw [hstep, ← hr, joinSep_charSplit]

theorem isPrefixOf_append_self (a b : Str) : a.isPrefixOf (a ++ b) = true := by
  induction a with
  | nil => simp [List.isPrefixOf]
  | cons c t ih => simp [List.isPrefixOf]

theorem containsSeq_of_infix (pat a b : Str) (hp : pat ≠ []) :
    containsSeq pat (a ++ pat ++ b) = true := by
  induction a with
  | nil =>
    simp only [List.nil_append]
    cases hpp : pat ++ b with
    | nil =>
      rcases List.append_eq_nil.mp hpp with ⟨h1, _⟩
      exact absurd h1 hp
    | cons x xs =>
      rw [show containsSeq pat (x :: xs) =
          (pat.isPrefixOf (x :: xs) || containsSeq pat xs) from rfl]
      rw [← hpp, isPrefixOf_append_self]
      simp
  | cons c t ih =>
    rw [show (c :: t) ++ pat ++ b = c :: (t ++ pat ++ b) by simp]
    rw [show containsSeq pat (c :: (t ++ pat ++ b)) =
        (pat.isPrefixOf (c :: (t ++ pat ++ b)) ||
          containsSeq pat (t ++ pat ++ b)) from rfl]
    rw [ih, Bool.or_true]

theorem append_sep_inj (x : Char) (a b c d : Str)
    (ha : x ∉ a) (hb : x ∉ b) (h : a ++ x :: b = c ++ x :: d) :
    a = c ∧ b = d := by
  induction a generalizing c with
  | nil =>
    cases c with
    | nil => simpa using h
    | cons z w =>
      exfalso
      have hz : x = z := by simpa using congrArg List.head? h
      have ht : b = w ++ x :: d := by simpa using congrArg List.tail h
      exact hb (by rw [ht]; simp)
  | cons y u ih =>
    cases c with
    | nil =>
      exfalso
      have hy : y = x := by simpa using congrArg List.head? h
      exact ha (by simp [hy])
    | cons z w =>
      have h1 : y = z := by simpa using congrArg List.head? h
      have h2 : u ++ x :: b = w ++ x :: d := by simpa using congrArg List.tail h
      have ihr := ih w (fun hh => ha (by simp [hh])) h2
      exact ⟨by rw [h1, ihr.1], ihr.2⟩

theorem registered_of_getPlatformConfig_ok (envv : EnvVars)
    (pid e : Str) (cfg : PlatformCfg)
    (h : getPlatformConfig envv pid e = .ok cfg) :
    (pid = str "onedigital" ∨ pid = str "invictus" ∨ pid = str "brokerage") ∧
      (e = str "uat" ∨ e = str "preprod" ∨ e = str "prod") := by
  unfold getPlatformConfig at h
  by_cases h1 : pid = str "onedigital"
  · refine ⟨Or.inl h1, ?_⟩
    rw [if_pos h1] at h
    unfold onedigitalEnvs at h
    by_cases e1 : e = str "uat"
    · exact Or.inl e1
    · by_cases e2 : e = str "preprod"
      · exact Or.inr (Or.inl e2)
      · by_cases e3 : e = str "prod"
        · exact Or.inr (Or.inr e3)
        · rw [if_neg e1, if_neg e2, if_neg e3] at h; exact absurd h (by simp)
  · rw [if_neg h1] at h
    by_cases h2 : pid = str "invictus"
    · refine ⟨Or.inr (Or.inl h2), ?_⟩
      rw [if_pos h2] at h
      unfold invictusEnvs at h
      by_cases e1 : e = str "uat"
      · exact Or.inl e1
      · by_cases e2 : e = str "preprod"
        · exact Or.inr (Or.inl e2)
        · by_cases e3 : e = str "prod"
          · exact Or.inr (Or.inr e3)
          · rw [if_neg e1, if_neg e2, if_neg e3] at h; exact absurd h (by simp)
    · rw [if_neg h2] at h
      by_cases h3 : pid = str "brokerage"
      · refine ⟨Or.inr (Or.inr h3), ?_⟩
        rw [if_pos h3] at h
        unfold brokerageEnvs at h
        by_cases e1 : e = str "uat"
        · exact Or.inl e1
        · by_cases e2 : e = str "preprod"
          · exact Or.inr (Or.inl e2)
          · by_cases e3 : e = str "prod"
            · exact Or.inr (Or.inr e3)
            · rw [if_neg e1, if_neg e2, if_neg e3] at h; exact absurd h (by simp)
      · rw [if_neg h3] at h; exact absurd h (by simp)

theorem registered_hyph_free (envv : EnvVars) (pid e : Str) (cfg : PlatformCfg)
    (h : getPlatformConfig envv pid e = .ok cfg) : hyph ∉ pid ∧ hyph ∉ e := by
  have hr := registered_of_getPlatformConfig_ok envv pid e cfg h
  constructor
  · rcases hr.1 with h1 | h1 | h1 <;> rw [h1] <;> decide
  · rcases hr.2 with h1 | h1 | h1 <;> rw [h1] <;> decide

theorem cacheKey_inj_left (envv : EnvVars) (pid e : Str)
    (cfg : PlatformCfg) (h : getPlatformConfig envv pid e = .ok cfg)
    (pid' e' : Str) (hk : cacheKey pid e = cacheKey pid' e') :
    pid = pid' ∧ e = e' := by
  have hf := registered_hyph_free envv pid e cfg h
  exact append_sep_inj hyph pid e pid' e' hf.1 hf.2 hk

theorem createAwsProvider_id (cfg : PlatformCfg) (id : Nat) (p : Provider)
    (h : createAwsProvider cfg id = .ok p) : p.id = id := by
  unfold createAwsProvider at h
  split at h
  · exact (Except.ok.inj h) ▸ rfl
  · exact absurd h (by simp)

theorem createAzureProvider_id (cfg : PlatformCfg) (id : Nat) (p : Provider)
    (h : createAzureProvider cfg id = .ok p) : p.id = id := by
  unfold createAzureProvider at h
  split at h
  · exact absurd h (by simp)
  · split at h
    · split at h
      · exact absurd h (by simp)
      · split at h
        · exact absurd h (by simp)
        · exact (Except.ok.inj h) ▸ rfl
    · exact (Except.ok.inj h) ▸ rfl

theorem createProvider_id (t : Str) (cfg : PlatformCfg) (id : Nat)
    (p : Provider) (h : createProvider t cfg id = .ok p) : p.id = id := by
  simp only [createProvider] at h
  split at h
  · exact createAzureProvider_id cfg id p h
  · split at h
    · exact createAwsProvider_id cfg id p h
    · split at h
      · exact createAwsProvider_id cfg id p h
      · exact absurd h (by simp)

theorem getStorageProvider_hit (envv : EnvVars) (s : ServiceState)
    (pid e : Str) (prov : Provider)
    (hhit : cacheLookup s.providerCache (cacheKey pid e) = some prov) :
    getStorageProvider envv s pid e = (.ok prov, s) := by
  simp only [getStorageProvider, hhit]

theorem getStorageProvider_cold (envv : EnvVars) (s : ServiceState)
    (pid e : Str) (prov : Provider) (s' : ServiceState)
    (hmiss : cacheLookup s.providerCache (cacheKey pid e) = none)
    (h : getStorageProvider envv s pid e = (.ok prov, s')) :
    ∃ cfg, getPlatformConfig envv pid e = .ok cfg ∧
      createProvider cfg.provider cfg s.factoryCalls = .ok prov ∧
      s' = ⟨s.providerCache ++ [(cacheKey pid e, prov)],
            s.configLookups + 1, s.factoryCalls + 1⟩ := by
  simp only [getStorageProvider, hmiss] at h
  cases hc : getPlatformConfig envv pid e with
  | error m => simp [hc] at h
  | ok cfg =>
    cases hp : createProvider cfg.provider cfg s.factoryCalls with
    | error m => simp [hc, hp] at h
    | ok p =>
      simp only [hc, hp, Prod.mk.injEq, Except.ok.injEq] at h
      obtain ⟨h1, h2⟩ := h
      subst h1
      exact ⟨cfg, rfl, hp, h2.symm⟩

/-- C1: for every (tenantId, environment) pair the routing layer creates at
most one adapter.  A first `getStorageProvider` call (empty cache) that
succeeds performs exactly one configuration lookup and one factory invocation
and stores the adapter under the cache key `{tenantId}-{environment}`; the
repeated call for the same pair returns the identical cached instance with
the service state unchanged (so no re-lookup and no re-construction); and a
successful call for any distinct (tenantId, environment) pair returns a
distinct adapter instance. -/
theorem c1_provider_cache_singleton
    (envv : EnvVars) (pid e pid' e' : Str) (prov prov' : Provider)
    (s1 s2 : ServiceState)
    (h1 : getStorageProvider envv initService pid e = (.ok prov, s1))
    (hne : (pid, e) ≠ (pid', e'))
    (h2 : getStorageProvider envv s1 pid' e' = (.ok prov', s2)) :
    s1.configLookups = 1 ∧ s1.factoryCalls = 1 ∧
    cacheLookup s1.providerCache (cacheKey pid e) = some prov ∧
    getStorageProvider envv s1 pid e = (.ok prov, s1) ∧
    prov' ≠ prov := by
  have hmiss : cacheLookup initService.providerCache (cacheKey pid e) = none := rfl
  obtain ⟨cfg, hc, hp, hs1⟩ :=
    getStorageProvider_cold envv initService pid e prov s1 hmiss h1
  subst hs1
  have hid : prov.id = 0 := createProvider_id _ _ _ _ hp
  have hhit : cacheLookup
      (initService.providerCache ++ [(cacheKey pid e, prov)])
      (cacheKey pid e) = some prov := by
    simp [initService, cacheLookup, List.find?]
  refine ⟨rfl, rfl, hhit, getStorageProvider_hit envv _ pid e prov hhit, ?_⟩
  cases hl : cacheLookup
      (initService.providerCache ++ [(cacheKey pid e, prov)])
      (cacheKey pid' e') with
  | some q =>
    have hkey : cacheKey pid e = cacheKey pid' e' := by
      by_contra hkne
      simp [initService, cacheLookup, List.find?, hkne] at hl
    have hpe := cacheKey_inj_left envv pid e cfg hc pid' e' hkey
    exact absurd (by rw [hpe.1, hpe.2]) hne
  | none =>
    obtain ⟨cfg', hc', hp', hs2⟩ :=
      getStorageProvider_cold envv _ pid' e' prov' s2 hl h2
    have hid' : prov'.id = 1 := createProvider_id _ _ _ _ hp'
    intro heq
    rw [heq, hid] at hid'
    exact absurd hid' (by decide)

/-- C1 witness: a concrete run — (onedigital, uat) resolved twice and
(invictus, uat) resolved once against the concrete environment `envW`. -/
theorem c1_provider_cache_singleton_witness :
    c1s1.configLookups = 1 ∧ c1s1.factoryCalls = 1 ∧
    cacheLookup c1s1.providerCache (cacheKey (str "onedigital") (str "uat"))
      = some c1prov ∧
    getStorageProvider envW c1s1 (str "onedigital") (str "uat")
      = (.ok c1prov, c1s1) ∧
    c1prov2 ≠ c1prov :=
  c1_provider_cache_singleton envW (str "onedigital") (str "uat")
    (str "invictus") (str "uat") c1prov c1prov2 c1s1 c1s2
    rfl (by decide) rfl

theorem find_last_of_keys_ne {κ ν : Type} [DecidableEq κ]
    (l : List (κ × ν)) (k : κ) (v : ν) (h : ∀ p ∈ l, p.1 ≠ k) :
    ((l ++ [(k, v)]).find? (fun p => p.1 = k)).map (fun p => p.2) = some v := by
  induction l with
  | nil => simp [List.find?]
  | cons p t ih =>
    rw [List.cons_append]
    have step : ((p :: (t ++ [(k, v)])).find? (fun q => q.1 = k)) =
        ((t ++ [(k, v)]).find? (fun q => q.1 = k)) :=
      List.find?_cons_of_neg _ (by simpa using h p (by simp))
    rw [step]
    exact ih (fun q hq => h q (by simp [hq]))

theorem assoc_insert_lookup {κ ν : Type} [DecidableEq κ]
    (l : List (κ × ν)) (k : κ) (v : ν) :
    (((l.filter (fun p => p.1 ≠ k)) ++ [(k, v)]).find?
      (fun p => p.1 = k)).map (fun p => p.2) = some v := by
  apply find_last_of_keys_ne
  intro p hp
  have := List.of_mem_filter hp
  simpa using this

theorem objLookup_insert_self (w : AwsWorld)
    (os : List ((Str × Str) × AwsObj)) (bucket key : Str) (o : AwsObj) :
    objLookup { w with objects := objInsert os bucket key o } bucket key
      = some o := by
  unfold objLookup objInsert
  exact assoc_insert_lookup os (bucket, key) o

theorem blobLookup_insert_self (w : AzureWorld)
    (bs : List ((Str × Str) × AzureBlob)) (container blob : Str)
    (b : AzureBlob) :
    blobLookup { w with blobs := blobInsert bs container blob b }
      container blob = some b := by
  unfold blobLookup blobInsert
  exact assoc_insert_lookup bs (container, blob) b

theorem awsUploadFile_stores (envv : EnvVars) (now region : Str)
    (w : AwsWorld) (bucketName fileData pfx fileName : Str)
    (metadata : JsObj) (access url : Str) (w' : AwsWorld)
    (h : awsUploadFile envv now region w bucketName fileData pfx fileName
      metadata access = (.ok url, w')) :
    ∃ cfg, getPlatformConfig envv (metaPlatformId metadata)
        (metaEnvironment metadata) = .ok cfg ∧
      objLookup w' (jsStrOfOpt cfg.bucketName)
          (awsKeyOf bucketName pfx fileName) =
        some ⟨fileData, awsFinalMeta now metadata access,
          decide (access = str "public")⟩ ∧
      url = awsBuildUrl region (jsStrOfOpt cfg.bucketName)
        (awsKeyOf bucketName pfx fileName) := by
  simp only [awsUploadFile] at h
  cases hc : getPlatformConfig envv (metaPlatformId metadata)
      (metaEnvironment metadata) with
  | error m => simp [hc] at h
  | ok cfg =>
    simp only [hc] at h
    cases hb : bucketLookup w.buckets (jsStrOfOpt cfg.bucketName) with
    | none => simp [hb] at h
    | some pub =>
      simp only [hb, Prod.mk.injEq, Except.ok.injEq] at h
      obtain ⟨h1, h2⟩ := h
      refine ⟨cfg, rfl, ?_, h1.symm⟩
      rw [← h2]
      exact objLookup_insert_self w w.objects _ _ _

theorem azureUploadFile_stores (now account : Str) (w : AzureWorld)
    (bucketName fileData pfx fileName : Str) (metadata : JsObj)
    (access url : Str) (w' : AzureWorld)
    (h : azureUploadFile now account w bucketName fileData pfx fileName
      metadata access = (.ok url, w')) :
    blobLookup w' bucketName (azureBlobPath pfx fileName) =
      some ⟨fileData, azureFinalMeta now metadata⟩ := by
  simp only [azureUploadFile] at h
  cases hex : containerLookup w.containers bucketName with
  | none =>
    simp only [hex, Prod.mk.injEq, Except.ok.injEq] at h
    obtain ⟨h1, h2⟩ := h
    rw [← h2]
    exact blobLookup_insert_self w w.blobs bucketName
      (azureBlobPath pfx fileName) ⟨fileData, azureFinalMeta now metadata⟩
  | some pub =>
    simp only [hex] at h
    by_cases hacc :
        (if azureIsContainerPublic w bucketName then str "public"
         else str "private") ≠ access
    · rw [if_pos hacc] at h
      exact absurd h (by simp)
    · rw [if_neg hacc] at h
      simp only [Prod.mk.injEq, Except.ok.injEq] at h
      obtain ⟨h1, h2⟩ := h
      rw [← h2]
      exact blobLookup_insert_self w w.blobs bucketName
        (azureBlobPath pfx fileName) ⟨fileData, azureFinalMeta now metadata⟩

theorem objGet_notmem_of_none (o : JsObj) (k : Str)
    (h : objGet o k = none) : k ∉ o.map Prod.fst := by
  induction o with
  | nil => simp
  | cons p t ih =>
    by_cases hp : p.1 = k
    · simp [objGet, hp] at h
    · intro hm
      rcases List.mem_map.mp hm with ⟨q, hq, hqk⟩
      rcases List.mem_cons.mp hq with hq1 | hq2
      · exact hp (hq1 ▸ hqk)
      · exact ih (by simpa [objGet, hp] using h)
          (List.mem_map.mpr ⟨q, hq2, hqk⟩)

/-- C2 counterexample: the Azure adapter does not coerce metadata values —
uploading `{answer: 42}` stores the raw number `42`, not the string `"42"`
(the claim asserts coercion for every backend adapter). -/
theorem c2_metadata_stringification_cex :
    c2azRun.1 =
      Except.ok (str "https://acct.blob.core.windows.net/docs/f.txt") ∧
    ((blobLookup c2azRun.2 (str "docs") (str "f.txt")).map
      (fun b => objGet b.meta (str "answer"))) = some (some (JsVal.vnum 42)) ∧
    JsVal.vnum 42 ≠ JsVal.vstr (str "42") := by
  refine ⟨rfl, rfl, by decide⟩

/-- C2 amended: after a successful upload, the S3 adapter has coerced every
caller metadata value to its string form (for keys other than the three it
stamps), while the Azure adapter attaches the caller values unchanged — no
coercion happens on the Azure path. -/
theorem c2_metadata_stringification (envv : EnvVars)
    (now region account : Str) (wA : AwsWorld) (wZ : AzureWorld)
    (bn fd pf fn : Str) (m : JsObj) (access k : Str) (v : JsVal)
    (cfg : PlatformCfg) (urlA urlZ : Str) (wA' : AwsWorld) (wZ' : AzureWorld)
    (hA : awsUploadFile envv now region wA bn fd pf fn m access
      = (.ok urlA, wA'))
    (hcfg : getPlatformConfig envv (metaPlatformId m) (metaEnvironment m)
      = .ok cfg)
    (hZ : azureUploadFile now account wZ bn fd pf fn m access
      = (.ok urlZ, wZ'))
    (hnd : (m.map Prod.fst).Nodup) (hget : objGet m k = some v)
    (hk1 : k ≠ str "uploadedAt") (hk2 : k ≠ str "provider")
    (hk3 : k ≠ str "access") :
    ((objLookup wA' (jsStrOfOpt cfg.bucketName) (awsKeyOf bn pf fn)).map
      (fun o => objGet o.meta k)) = some (some (.vstr (jsString v))) ∧
    ((blobLookup wZ' bn (azureBlobPath pf fn)).map
      (fun b => objGet b.meta k)) = some (some v) := by
  constructor
  · obtain ⟨cfg0, hc0, hlook, _⟩ := awsUploadFile_stores envv now region wA
      bn fd pf fn m access urlA wA' hA
    rw [hcfg] at hc0
    cases Except.ok.inj hc0
    rw [hlook]
    simp only [Option.map_some']
    congr 1
    unfold awsFinalMeta
    rw [objGet_objSet_ne _ _ _ _ hk3, objGet_objSet_ne _ _ _ _ hk2,
        objGet_objSet_ne _ _ _ _ hk1]
    exact objGet_stringify_mem m [] k v hnd hget
  · rw [azureUploadFile_stores now account wZ bn fd pf fn m access urlZ wZ' hZ]
    simp only [Option.map_some']
    congr 1
    exact objGet_merge_mem _ m k v hnd hget

/-- C2 witness: the amended theorem at the concrete runs `c2awsRun` /
`c2azRun` with key `answer` and value `42`. -/
theorem c2_metadata_stringification_witness :
    ((objLookup c2awsRun.2 (jsStrOfOpt c2cfg.bucketName)
      (awsKeyOf (str "docs") [] (str "f.txt"))).map
      (fun o => objGet o.meta (str "answer")))
      = some (some (.vstr (jsString (JsVal.vnum 42)))) ∧
    ((blobLookup c2azRun.2 (str "docs")
      (azureBlobPath [] (str "f.txt"))).map
      (fun b => objGet b.meta (str "answer"))) = some (some (JsVal.vnum 42)) :=
  c2_metadata_stringification envW (str "T0") (str "ap-south-1") (str "acct")
    awsW0 azW0 (str "docs") (str "data") [] (str "f.txt") c2meta
    (str "private") (str "answer") (JsVal.vnum 42) c2cfg
    (exOk [] c2awsRun.1) (exOk [] c2azRun.1) c2awsRun.2 c2azRun.2
    rfl rfl rfl (by decide) (by decide) (by decide) (by decide) (by decide)

/-- C3 counterexample: on the Azure adapter the caller spread comes after the
stamps, so a caller-supplied `provider` value survives into the stored
metadata — the stamps do not override the caller (the claim asserts they do
for every backend adapter). -/
theorem c3_reserved_keys_cex :
    c3azRun.1 =
      Except.ok (str "https://acct.blob.core.windows.net/docs/f.txt") ∧
    ((blobLookup c3azRun.2 (str "docs") (str "f.txt")).map
      (fun b => objGet b.meta (str "provider")))
      = some (some (JsVal.vstr (str "evil"))) ∧
    JsVal.vstr (str "evil") ≠ JsVal.vstr (str "azure") := by
  refine ⟨rfl, rfl, by decide⟩

/-- C3 amended: the S3 adapter stamps `uploadedAt`/`provider` after coercing
the caller metadata, so its stamps override any caller value; the Azure
adapter spreads the caller metadata last, so its stamps are only defaults —
caller-supplied `uploadedAt`/`provider` values win there.  The routing-layer
enrichment `{platformId, environment, provider, ...metadata}` likewise lets
the caller override every enriched key, including `provider`. -/
theorem c3_reserved_keys (now : Str) (m : JsObj) (access : Str)
    (pid e pname : Str) (k : Str) (v : JsVal)
    (hnd : (m.map Prod.fst).Nodup) :
    objGet (awsFinalMeta now m access) (str "uploadedAt")
      = some (.vstr now) ∧
    objGet (awsFinalMeta now m access) (str "provider")
      = some (.vstr (str "s3")) ∧
    (objGet m k = some v → objGet (azureFinalMeta now m) k = some v) ∧
    (objGet m (str "uploadedAt") = none →
      objGet (azureFinalMeta now m) (str "uploadedAt") = some (.vstr now)) ∧
    (objGet m (str "provider") = none →
      objGet (azureFinalMeta now m) (str "provider")
        = some (.vstr (str "azure"))) ∧
    (objGet m k = some v → objGet (enrichMetadata pid e pname m) k = some v) := by
  refine ⟨?_, ?_, ?_, ?_, ?_, ?_⟩
  · unfold awsFinalMeta
    rw [objGet_objSet_ne _ _ _ _ (by decide),
        objGet_objSet_ne _ _ _ _ (by decide)]
    exact objGet_objSet_self _ _ _
  · unfold awsFinalMeta
    rw [objGet_objSet_ne _ _ _ _ (by decide)]
    exact objGet_objSet_self _ _ _
  · exact fun hget => objGet_merge_mem _ m k v hnd hget
  · intro hnone
    unfold azureFinalMeta
    rw [objGet_merge_notmem _ _ _ (objGet_notmem_of_none m _ hnone)]
    simp [objGet]
  · intro hnone
    unfold azureFinalMeta
    rw [objGet_merge_notmem _ _ _ (objGet_notmem_of_none m _ hnone)]
    simp [objGet, show ¬ (str "uploadedAt" = str "provider") by decide]
  · exact fun hget => objGet_merge_mem _ m k v hnd hget

/-- C3 witness: the amended theorem at the concrete metadata `c3meta`
(caller override of `provider` with `evil`). -/
theorem c3_reserved_keys_witness :
    objGet (awsFinalMeta (str "T0") c3meta (str "private"))
      (str "uploadedAt") = some (.vstr (str "T0")) ∧
    objGet (awsFinalMeta (str "T0") c3meta (str "private"))
      (str "provider") = some (.vstr (str "s3")) ∧
    (objGet c3meta (str "provider") = some (JsVal.vstr (str "evil")) →
      objGet (azureFinalMeta (str "T0") c3meta) (str "provider")
        = some (JsVal.vstr (str "evil"))) ∧
    (objGet c3meta (str "uploadedAt") = none →
      objGet (azureFinalMeta (str "T0") c3meta) (str "uploadedAt")
        = some (.vstr (str "T0"))) ∧
    (objGet c3meta (str "provider") = none →
      objGet (azureFinalMeta (str "T0") c3meta) (str "provider")
        = some (.vstr (str "azure"))) ∧
    (objGet c3meta (str "provider") = some (JsVal.vstr (str "evil")) →
      objGet (enrichMetadata (str "onedigital") (str "prod") (str "azure")
        c3meta) (str "provider") = some (JsVal.vstr (str "evil"))) :=
  c3_reserved_keys (str "T0") c3meta (str "private") (str "onedigital")
    (str "prod") (str "azure") (str "provider") (JsVal.vstr (str "evil"))
    (by decide)

/-- C4 counterexample: the S3 adapter performs no container-level access
check (that code is commented out) — an upload requesting `private` against
a pre-existing bucket whose ACL is public succeeds and writes the object,
instead of failing with an access-mismatch error as the claim asserts for
every backend adapter. -/
theorem c4_access_mismatch_cex :
    awsIsBucketPublic awsW0 (str "physbucket") = true ∧
    c4awsRun.1 = Except.ok
      (str "https://physbucket.s3.ap-south-1.amazonaws.com/docs/f.txt") ∧
    (objLookup c4awsRun.2 (str "physbucket") (str "docs/f.txt")).isSome
      = true := by
  refine ⟨rfl, rfl, rfl⟩

/-- C4 amended: only the Azure adapter enforces the access-level invariant —
an upload whose requested access differs from an existing container's level
fails with the access-mismatch error and leaves the world unchanged (no
write); the S3 adapter only requires the physical bucket to exist and then
writes unconditionally, applying per-object ACLs, with no container-level
access validation. -/
theorem c4_access_mismatch (now account : Str) (w : AzureWorld)
    (bn fd pf fn : Str) (m : JsObj) (access : Str) (b : Bool)
    (envv : EnvVars) (region : Str) (wA : AwsWorld)
    (bnA fdA pfA fnA : Str) (mA : JsObj) (accessA : Str)
    (cfg : PlatformCfg) (pub : Bool)
    (hlook : containerLookup w.containers bn = some b)
    (hne : (if b then str "public" else str "private") ≠ access)
    (hcfg : getPlatformConfig envv (metaPlatformId mA) (metaEnvironment mA)
      = .ok cfg)
    (hb : bucketLookup wA.buckets (jsStrOfOpt cfg.bucketName) = some pub) :
    azureUploadFile now account w bn fd pf fn m access =
      (.error (str "Azure upload failed: " ++ accessMismatchMsg bn
        (if b then str "public" else str "private") access), w) ∧
    (awsUploadFile envv now region wA bnA fdA pfA fnA mA accessA).1 =
      .ok (awsBuildUrl region (jsStrOfOpt cfg.bucketName)
        (awsKeyOf bnA pfA fnA)) ∧
    objLookup (awsUploadFile envv now region wA bnA fdA pfA fnA mA accessA).2
        (jsStrOfOpt cfg.bucketName) (awsKeyOf bnA pfA fnA) =
      some ⟨fdA, awsFinalMeta now mA accessA,
        decide (accessA = str "public")⟩ := by
  have hpub : azureIsContainerPublic w bn = b := by
    simp [azureIsContainerPublic, hlook]
  refine ⟨?_, ?_, ?_⟩
  · simp only [azureUploadFile, hlook, hpub]
    rw [if_pos hne]
  · simp only [awsUploadFile, hcfg, hb]
  · simp only [awsUploadFile, hcfg, hb]
    exact objLookup_insert_self wA wA.objects _ _ _

/-- C4 witness: the amended theorem at a public Azure container `docs` with
a `private` request, and the concrete S3 world `awsW0`. -/
theorem c4_access_mismatch_witness :
    azureUploadFile (str "T0") (str "acct") azW1 (str "docs") (str "data")
      [] (str "f.txt") [] (str "private") =
      (.error (str "Azure upload failed: " ++ accessMismatchMsg (str "docs")
        (if true then str "public" else str "private") (str "private")),
       azW1) ∧
    c4awsRun.1 = .ok (awsBuildUrl (str "ap-south-1")
      (jsStrOfOpt c2cfg.bucketName)
      (awsKeyOf (str "docs") [] (str "f.txt"))) ∧
    objLookup c4awsRun.2 (jsStrOfOpt c2cfg.bucketName)
        (awsKeyOf (str "docs") [] (str "f.txt")) =
      some ⟨str "data", awsFinalMeta (str "T0") metaProd (str "private"),
        decide (str "private" = str "public")⟩ :=
  c4_access_mismatch (str "T0") (str "acct") azW1 (str "docs") (str "data")
    [] (str "f.txt") [] (str "private") true envW (str "ap-south-1") awsW0
    (str "docs") (str "data") [] (str "f.txt") metaProd (str "private")
    c2cfg true rfl (by decide) rfl rfl

/-- C5: in both adapters, `generateDownloadUrl` on a parseable address whose
object does not exist fails with the wrapped `File not found` error and
returns the world unchanged — in particular the signing-call counter is
untouched, so no signing is attempted before existence is confirmed. -/
theorem c5_download_gating (region url urlZ : Str) (nowMs : Int)
    (wA : AwsWorld) (wZ : AzureWorld) (optA optZ : Option Int)
    (pA : AwsParsed) (pZ : AzureParsed)
    (hpA : awsParseUrl region url = .ok pA)
    (habA : objLookup wA pA.bucketName pA.key = none)
    (hpZ : azureParseUrl urlZ = .ok pZ)
    (habZ : blobLookup wZ pZ.containerName pZ.blobName = none) :
    awsGenerateDownloadUrl region nowMs wA url optA =
      (.error (str "S3 download URL generation failed: File not found"),
       wA) ∧
    azureGenerateDownloadUrl nowMs wZ urlZ optZ =
      (.error (str "Azure SAS generation failed: File not found"), wZ) := by
  constructor
  · have hex : awsFileExistsE region wA url = .ok false := by
      simp [awsFileExistsE, hpA, habA]
    simp [awsGenerateDownloadUrl, hpA, hex]
  · have hex : azureFileExistsB wZ urlZ = false := by
      simp [azureFileExistsB, hpZ, habZ]
    simp [azureGenerateDownloadUrl, hpZ, hex]

/-- C5 witness: concrete nonexistent objects in `awsW0` / `azW0`. -/
theorem c5_download_gating_witness :
    awsGenerateDownloadUrl (str "ap-south-1") 0 awsW0 c5urlA none =
      (.error (str "S3 download URL generation failed: File not found"),
       awsW0) ∧
    azureGenerateDownloadUrl 0 azW0 c5urlZ none =
      (.error (str "Azure SAS generation failed: File not found"), azW0) :=
  c5_download_gating (str "ap-south-1") c5urlA c5urlZ 0 awsW0 azW0 none none
    c5pA c5pZ rfl rfl rfl rfl

/-- C9: both adapters compute `expiryMinutes || 60`, so an absent option and
an explicit `0` alike fall back to 60 minutes — a private object download
then carries `expiresIn = 3600` seconds and requires a signature; a caller
can never obtain a zero-minute signed URL. -/
theorem c9_expiry_default (region url urlZ : Str) (nowMs : Int)
    (wA : AwsWorld) (wZ : AzureWorld) (optA optZ : Option Int)
    (pA : AwsParsed) (pZ : AzureParsed) (oA : AwsObj) (bZ : AzureBlob)
    (hpA : awsParseUrl region url = .ok pA)
    (hobjA : objLookup wA pA.bucketName pA.key = some oA)
    (hpriv : oA.publicAcl = false)
    (hoptA : optA = none ∨ optA = some 0)
    (hpZ : azureParseUrl urlZ = .ok pZ)
    (hobjZ : blobLookup wZ pZ.containerName pZ.blobName = some bZ)
    (hprivZ : azureIsContainerPublic wZ pZ.containerName = false)
    (hoptZ : optZ = none ∨ optZ = some 0) :
    (∃ r, (awsGenerateDownloadUrl region nowMs wA url optA).1 = .ok r ∧
       r.expiresIn = some 3600 ∧ r.requiresSAS = true) ∧
    (∃ r, (azureGenerateDownloadUrl nowMs wZ urlZ optZ).1 = .ok r ∧
       r.expiresIn = some 3600 ∧ r.requiresSAS = true) := by
  constructor
  · have hex : awsFileExistsE region wA url = .ok true := by
      simp [awsFileExistsE, hpA, hobjA]
    have hpub : awsIsObjectPublic wA pA.bucketName pA.key = false := by
      simp [awsIsObjectPublic, hobjA, hpriv]
    have keyA : jsOrNum optA 60 = 60 := by
      rcases hoptA with h | h <;> subst h <;> simp [jsOrNum]
    refine ⟨⟨url ++ str "?X-Amz-Expires=" ++ intToStr (60 * 60), false, true,
      some (60 * 60), some (nowMs + 60 * 60 * 1000), lastSeg pA.key⟩,
      ?_, by norm_num, rfl⟩
    simp [awsGenerateDownloadUrl, hpA, hex, hpub, keyA]
  · have hex : azureFileExistsB wZ urlZ = true := by
      simp [azureFileExistsB, hpZ, hobjZ]
    have keyZ : jsOrNum optZ 60 = 60 := by
      rcases hoptZ with h | h <;> subst h <;> simp [jsOrNum]
    refine ⟨⟨urlZ ++ Char.ofNat 63 :: sasTokenModel pZ.containerName
        pZ.blobName (nowMs - 5 * 60000) (nowMs + 60 * 60000), false, true,
      some (60 * 60), some (nowMs + 60 * 60000), lastSeg pZ.blobName⟩,
      ?_, by norm_num, rfl⟩
    simp [azureGenerateDownloadUrl, hpZ, hex, hprivZ, keyZ]

/-- C9 witness: a private object in each world, requested with an explicit
`expiryMinutes = 0` on S3 and an absent option on Azure. -/
theorem c9_expiry_default_witness :
    (∃ r, (awsGenerateDownloadUrl (str "ap-south-1") 1000 awsW1 c9urlA
        (some 0)).1 = .ok r ∧
       r.expiresIn = some 3600 ∧ r.requiresSAS = true) ∧
    (∃ r, (azureGenerateDownloadUrl 1000 azW2 c9urlZ none).1 = .ok r ∧
       r.expiresIn = some 3600 ∧ r.requiresSAS = true) :=
  c9_expiry_default (str "ap-south-1") c9urlA c9urlZ 1000 awsW1 azW2
    (some 0) none c9pA c9pZ ⟨str "data", [], false⟩ ⟨str "data", []⟩
    rfl rfl rfl (Or.inr rfl) rfl rfl rfl (Or.inl rfl)

/-- C7 counterexample: the Azure adapter does not fold an empty key into the
container name — `deleteFileByBucketKey("documents", "")` issues the backend
delete for the blob named `""` inside container `documents`, not for the
path `documents` (the claim asserts container-as-key folding for every
backend adapter). -/
theorem c7_empty_key_cex :
    (azureDeleteFileByBucketKey azW0 (str "documents") [] []).2.deleteCalls
      = [(str "documents", ([] : Str))] ∧
    (azureDeleteFileByBucketKey azW0 (str "documents") [] []).1
      = .ok true ∧
    ([] : Str) ≠ str "documents" := by
  refine ⟨rfl, rfl, by decide⟩

/-- C7 amended: only the S3 adapter folds a falsy key into the container
name (`key ? bucketName + "/" + key : bucketName`): with an empty key, the
delete call is addressed by the caller container name alone (inside the
configured physical bucket); with a non-empty key it addresses
`{container}/{key}`.  The Azure adapter always addresses exactly the
(container, blobName) pair it was given, so an empty key addresses the
empty blob name. -/
theorem c7_empty_key_delete (envv : EnvVars) (w wB : AwsWorld)
    (wZ : AzureWorld) (bn key cn bz : Str) (m mZ : JsObj)
    (cfg : PlatformCfg)
    (hcfg : getPlatformConfig envv (metaPlatformId m) (metaEnvironment m)
      = .ok cfg) :
    (awsDeleteFileByBucketKey envv w bn [] m).2.deleteCalls =
      w.deleteCalls ++ [(jsStrOfOpt cfg.bucketName, bn)] ∧
    (key ≠ [] →
      (awsDeleteFileByBucketKey envv wB bn key m).2.deleteCalls =
        wB.deleteCalls ++ [(jsStrOfOpt cfg.bucketName, bn ++ slash :: key)]) ∧
    (azureDeleteFileByBucketKey wZ cn bz mZ).2.deleteCalls =
      wZ.deleteCalls ++ [(cn, bz)] := by
  refine ⟨?_, ?_, ?_⟩
  · cases hf : w.deleteFault <;>
      simp [awsDeleteFileByBucketKey, hcfg, hf]
  · intro hk
    cases hf : wB.deleteFault <;>
      simp [awsDeleteFileByBucketKey, hcfg, hf, hk]
  · cases hf : wZ.deleteFault <;>
      simp [azureDeleteFileByBucketKey, hf]

/-- C7 witness: the amended theorem at a concrete tenant configuration and
worlds (`awsW0`, `azW0`), with key `a` for the non-empty case. -/
theorem c7_empty_key_delete_witness :
    (awsDeleteFileByBucketKey envW awsW0 (str "documents") [] metaProd
        ).2.deleteCalls =
      awsW0.deleteCalls ++ [(jsStrOfOpt c2cfg.bucketName, str "documents")] ∧
    (str "a" ≠ [] →
      (awsDeleteFileByBucketKey envW awsW0 (str "documents") (str "a")
          metaProd).2.deleteCalls =
        awsW0.deleteCalls ++ [(jsStrOfOpt c2cfg.bucketName,
          str "documents" ++ slash :: str "a")]) ∧
    (azureDeleteFileByBucketKey azW0 (str "documents") [] []).2.deleteCalls =
      azW0.deleteCalls ++ [(str "documents", ([] : Str))] :=
  c7_empty_key_delete envW awsW0 awsW0 azW0 (str "documents") (str "a")
    (str "documents") [] metaProd [] c2cfg rfl

/-- C10: in both adapters, `deleteFile` and `deleteFileByBucketKey` never
produce `false` — every run either returns `true` (whenever the backend
delete call completes without throwing) or throws an error wrapped with the
operation-scoped prefix; the boolean result carries no failure
information. -/
theorem c10_delete_never_false (region url urlZ : Str) (envv : EnvVars)
    (wA wB : AwsWorld) (wZ wY : AzureWorld) (bn key cn bz : Str)
    (m mZ : JsObj) :
    ((awsDeleteFile region wA url).1 ≠ .ok false ∧
      ((awsDeleteFile region wA url).1 = .ok true ∨
       ∃ e, (awsDeleteFile region wA url).1 =
         .error (str "S3 delete failed: " ++ e))) ∧
    ((awsDeleteFileByBucketKey envv wB bn key m).1 ≠ .ok false ∧
      ((awsDeleteFileByBucketKey envv wB bn key m).1 = .ok true ∨
       ∃ e, (awsDeleteFileByBucketKey envv wB bn key m).1 =
         .error (str "S3 delete by bucket key failed: " ++ e))) ∧
    ((azureDeleteFile wZ urlZ).1 ≠ .ok false ∧
      ((azureDeleteFile wZ urlZ).1 = .ok true ∨
       ∃ e, (azureDeleteFile wZ urlZ).1 =
         .error (str "Azure delete failed: " ++ e))) ∧
    ((azureDeleteFileByBucketKey wY cn bz mZ).1 ≠ .ok false ∧
      ((azureDeleteFileByBucketKey wY cn bz mZ).1 = .ok true ∨
       ∃ e, (azureDeleteFileByBucketKey wY cn bz mZ).1 =
         .error (str "Azure delete by bucket key failed: " ++ e))) := by
  refine ⟨?_, ?_, ?_, ?_⟩
  · cases hp : awsParseUrl region url with
    | error e =>
      exact ⟨by simp [awsDeleteFile, hp],
        Or.inr ⟨e, by simp [awsDeleteFile, hp]⟩⟩
    | ok p =>
      cases hf : wA.deleteFault with
      | some e =>
        exact ⟨by simp [awsDeleteFile, hp, hf],
          Or.inr ⟨e, by simp [awsDeleteFile, hp, hf]⟩⟩
      | none =>
        exact ⟨by simp [awsDeleteFile, hp, hf],
          Or.inl (by simp [awsDeleteFile, hp, hf])⟩
  · cases hc : getPlatformConfig envv (metaPlatformId m)
        (metaEnvironment m) with
    | error e =>
      exact ⟨by simp [awsDeleteFileByBucketKey, hc],
        Or.inr ⟨e, by simp [awsDeleteFileByBucketKey, hc]⟩⟩
    | ok cfg =>
      cases hf : wB.deleteFault with
      | some e =>
        exact ⟨by simp [awsDeleteFileByBucketKey, hc, hf],
          Or.inr ⟨e, by simp [awsDeleteFileByBucketKey, hc, hf]⟩⟩
      | none =>
        exact ⟨by simp [awsDeleteFileByBucketKey, hc, hf],
          Or.inl (by simp [awsDeleteFileByBucketKey, hc, hf])⟩
  · cases hp : azureParseUrl urlZ with
    | error e =>
      exact ⟨by simp [azureDeleteFile, hp],
        Or.inr ⟨e, by simp [azureDeleteFile, hp]⟩⟩
    | ok p =>
      cases hf : wZ.deleteFault with
      | some e =>
        exact ⟨by simp [azureDeleteFile, hp, hf],
          Or.inr ⟨e, by simp [azureDeleteFile, hp, hf]⟩⟩
      | none =>
        exact ⟨by simp [azureDeleteFile, hp, hf],
          Or.inl (by simp [azureDeleteFile, hp, hf])⟩
  · cases hf : wY.deleteFault with
    | some e =>
      exact ⟨by simp [azureDeleteFileByBucketKey, hf],
        Or.inr ⟨e, by simp [azureDeleteFileByBucketKey, hf]⟩⟩
    | none =>
      exact ⟨by simp [azureDeleteFileByBucketKey, hf],
        Or.inl (by simp [azureDeleteFileByBucketKey, hf])⟩

theorem mem_append3_ne {x : Char} {a b c : Str}
    (ha : ∀ d ∈ a, d ≠ x) (hb : ∀ d ∈ b, d ≠ x) (hc : ∀ d ∈ c, d ≠ x) :
    ∀ d ∈ a ++ (b ++ c), d ≠ x := by
  intro d hd
  rcases List.mem_append.mp hd with h1 | h2
  · exact ha d h1
  · rcases List.mem_append.mp h2 with h3 | h4
    · exact hb d h3
    · exact hc d h4

theorem aws_roundtrip (region bucket key : Str)
    (hb1 : bucket ≠ []) (hb2 : dot ∉ bucket) (hb3 : slash ∉ bucket)
    (hr : slash ∉ region)
    (hkseg : ∀ s ∈ charSplit slash key, s ≠ str "." ∧ s ≠ str "..") :
    (awsParseUrl region (awsBuildUrl region bucket key)).map
      (fun p => (p.bucketName, p.key)) = .ok (bucket, key) := by
  have hb3' : ∀ d ∈ bucket, d ≠ slash := fun d hd he => hb3 (he ▸ hd)
  have hr' : ∀ d ∈ region, d ≠ slash := fun d hd he => hr (he ▸ hd)
  have hs3 : ∀ d ∈ str ".s3.", d ≠ slash := by decide
  have ham : ∀ d ∈ str ".amazonaws.com", d ≠ slash := by decide
  have hurl : awsBuildUrl region bucket key =
      str "https://" ++ ((bucket ++ (str ".s3." ++ (region ++
        str ".amazonaws.com"))) ++ slash :: key) := by
    have hd : str ".amazonaws.com/" = str ".amazonaws.com" ++ [slash] := by
      decide
    unfold awsBuildUrl
    rw [hd]
    simp [List.append_assoc]
  have hpre : ((str "https://").isPrefixOf
      (awsBuildUrl region bucket key)) = true := by
    rw [hurl]; exact isPrefixOf_append_self _ _
  have hdrop : (awsBuildUrl region bucket key).drop 8 =
      (bucket ++ (str ".s3." ++ (region ++ str ".amazonaws.com"))) ++
        slash :: key := by
    rw [hurl]
    have h8 : (8 : Nat) = (str "https://").length := by decide
    rw [h8, List.drop_left]
  have hnos : ∀ d ∈ bucket ++ (str ".s3." ++ (region ++
      str ".amazonaws.com")), d ≠ slash := by
    intro d hd
    rcases List.mem_append.mp hd with h1 | h2
    · exact hb3' d h1
    · exact mem_append3_ne hs3 hr' ham d h2
  have htake : ((bucket ++ (str ".s3." ++ (region ++
      str ".amazonaws.com"))) ++ slash :: key).takeWhile
        (fun c => c ≠ slash) =
      bucket ++ (str ".s3." ++ (region ++ str ".amazonaws.com")) :=
    takeWhile_append_stop slash _ key hnos
  have hdropw : ((bucket ++ (str ".s3." ++ (region ++
      str ".amazonaws.com"))) ++ slash :: key).dropWhile
        (fun c => c ≠ slash) = slash :: key :=
    dropWhile_append_stop slash _ key hnos
  have hparse : parseHttpsUrl (awsBuildUrl region bucket key) =
      .ok (bucket ++ (str ".s3." ++ (region ++ str ".amazonaws.com")),
        slash :: key) := by
    unfold parseHttpsUrl
    rw [if_pos hpre, hdrop]
    simp only [htake, hdropw]
    simp
    rw [normalizeDotSegments_id (charSplit slash key) [] hkseg,
      List.nil_append, joinSep_charSplit]
  have hcont : containsSeq (str ".s3.") (bucket ++ (str ".s3." ++
      (region ++ str ".amazonaws.com"))) = true := by
    have := containsSeq_of_infix (str ".s3.") bucket
      (region ++ str ".amazonaws.com") (by decide)
    simpa [List.append_assoc] using this
  have hsplitdot : charSplit dot (bucket ++ (str ".s3." ++
      (region ++ str ".amazonaws.com"))) =
      bucket :: charSplit dot (str "s3." ++ (region ++
        str ".amazonaws.com")) := by
    have hd : str ".s3." ++ (region ++ str ".amazonaws.com") =
        dot :: (str "s3." ++ (region ++ str ".amazonaws.com")) := by
      have : str ".s3." = dot :: str "s3." := by decide
      rw [this]; simp
    rw [hd]
    exact charSplit_append dot bucket _ hb2
  unfold awsParseUrl
  rw [hparse]
  simp only [hcont, if_true, hsplitdot, List.headD, List.drop_one,
    List.tail_cons, Except.map]

theorem azure_roundtrip (account container blob : Str)
    (ha : slash ∉ account) (hc1 : container ≠ []) (hc2 : slash ∉ container)
    (hbl : ∀ p ∈ charSplit slash blob, p ≠ [])
    (hcd1 : container ≠ str ".") (hcd2 : container ≠ str "..")
    (hblseg : ∀ s ∈ charSplit slash blob, s ≠ str "." ∧ s ≠ str "..") :
    (azureParseUrl (azureBuildUrl account container blob)).map
      (fun p => (p.containerName, p.blobName)) = .ok (container, blob) := by
  have ha' : ∀ d ∈ account, d ≠ slash := fun d hd he => ha (he ▸ hd)
  have hbn : ∀ d ∈ str ".blob.core.windows.net", d ≠ slash := by decide
  have hurl : azureBuildUrl account container blob =
      str "https://" ++ ((account ++ str ".blob.core.windows.net") ++
        slash :: (container ++ slash :: blob)) := by
    have hd : str ".blob.core.windows.net/" =
        str ".blob.core.windows.net" ++ [slash] := by decide
    unfold azureBuildUrl
    rw [hd]
    simp [List.append_assoc]
  have hpre : ((str "https://").isPrefixOf
      (azureBuildUrl account container blob)) = true := by
    rw [hurl]; exact isPrefixOf_append_self _ _
  have hdrop : (azureBuildUrl account container blob).drop 8 =
      (account ++ str ".blob.core.windows.net") ++
        slash :: (container ++ slash :: blob) := by
    rw [hurl]
    have h8 : (8 : Nat) = (str "https://").length := by decide
    rw [h8, List.drop_left]
  have hnos : ∀ d ∈ account ++ str ".blob.core.windows.net",
      d ≠ slash := by
    intro d hd
    rcases List.mem_append.mp hd with h1 | h2
    · exact ha' d h1
    · exact hbn d h2
  have htake : ((account ++ str ".blob.core.windows.net") ++
      slash :: (container ++ slash :: blob)).takeWhile
        (fun c => c ≠ slash) = account ++ str ".blob.core.windows.net" :=
    takeWhile_append_stop slash _ _ hnos
  have hdropw : ((account ++ str ".blob.core.windows.net") ++
      slash :: (container ++ slash :: blob)).dropWhile
        (fun c => c ≠ slash) = slash :: (container ++ slash :: blob) :=
    dropWhile_append_stop slash _ _ hnos
  have hsplit2 : charSplit slash (container ++ slash :: blob) =
      container :: charSplit slash blob :=
    charSplit_append slash container blob hc2
  have hseg : ∀ s ∈ container :: charSplit slash blob,
      s ≠ str "." ∧ s ≠ str ".." := by
    intro s hs
    rcases List.mem_cons.mp hs with h1 | h2
    · exact ⟨h1 ▸ hcd1, h1 ▸ hcd2⟩
    · exact hblseg s h2
  have hparse : parseHttpsUrl (azureBuildUrl account container blob) =
      .ok (account ++ str ".blob.core.windows.net",
        slash :: (container ++ slash :: blob)) := by
    unfold parseHttpsUrl
    rw [if_pos hpre, hdrop]
    simp only [htake, hdropw]
    simp
    rw [hsplit2, normalizeDotSegments_id (container :: charSplit slash blob)
      [] hseg, List.nil_append, joinSep_cons_split]
  have hsplit1 : charSplit slash (slash :: (container ++ slash :: blob)) =
      [] :: charSplit slash (container ++ slash :: blob) := by
    simp [charSplit]
  have hfilter : (([] : Str) :: container :: charSplit slash blob).filter
      (fun p => p ≠ []) = container :: charSplit slash blob := by
    rw [List.filter_cons_of_neg (by simp)]
    rw [List.filter_cons_of_pos (by simpa using hc1)]
    rw [List.filter_eq_self.mpr (fun p hp => by simpa using hbl p hp)]
  unfold azureParseUrl
  rw [hparse]
  simp only [hsplit1, hsplit2, hfilter, List.headD, List.drop_one,
    List.tail_cons, joinSep_charSplit, Except.map]

/-- C6: for both adapters, parsing the permanent address built from
(container, key) reproduces (container, key) exactly, including keys that
contain `/`.  The hypotheses delimit the valid pairs: names are non-empty,
the host-side components carry no `/` (and the S3 bucket no `.`, since the
virtual-hosted hostname is split at dots), key segments are non-empty (the
Azure parser drops empty path segments) and are not the dot segments `.` or
`..` (which the WHATWG parser normalizes away), and all characters come
from the sanitizer allow-list (plus `/` inside keys) so that the WHATWG URL
parser performs no percent-encoding on them. -/
theorem c6_url_roundtrip (region bucket key account container blob : Str)
    (hb1 : bucket ≠ []) (hb2 : dot ∉ bucket) (hb3 : slash ∉ bucket)
    (hbsafe : ∀ c ∈ bucket, isAllowedChar c = true)
    (hr : slash ∉ region)
    (hksafe : ∀ c ∈ key, isAllowedChar c = true ∨ c = slash)
    (hkseg : ∀ s ∈ charSplit slash key, s ≠ str "." ∧ s ≠ str "..")
    (ha : slash ∉ account)
    (hc1 : container ≠ []) (hc2 : slash ∉ container)
    (hcsafe : ∀ c ∈ container, isAllowedChar c = true)
    (hcd1 : container ≠ str ".") (hcd2 : container ≠ str "..")
    (hbl : ∀ p ∈ charSplit slash blob, p ≠ [])
    (hblsafe : ∀ c ∈ blob, isAllowedChar c = true ∨ c = slash)
    (hblseg : ∀ s ∈ charSplit slash blob, s ≠ str "." ∧ s ≠ str "..") :
    (awsParseUrl region (awsBuildUrl region bucket key)).map
      (fun p => (p.bucketName, p.key)) = .ok (bucket, key) ∧
    (azureParseUrl (azureBuildUrl account container blob)).map
      (fun p => (p.containerName, p.blobName)) = .ok (container, blob) :=
  ⟨aws_roundtrip region bucket key hb1 hb2 hb3 hr hkseg,
   azure_roundtrip account container blob ha hc1 hc2 hbl hcd1 hcd2 hblseg⟩

/-- C6 witness: a concrete pair per backend, with keys containing `/`. -/
theorem c6_url_roundtrip_witness :
    (awsParseUrl (str "ap-south-1")
      (awsBuildUrl (str "ap-south-1") (str "mybucket")
        (str "docs/a.txt"))).map (fun p => (p.bucketName, p.key))
      = .ok (str "mybucket", str "docs/a.txt") ∧
    (azureParseUrl (azureBuildUrl (str "acct") (str "documents")
      (str "pre/file.txt"))).map (fun p => (p.containerName, p.blobName))
      = .ok (str "documents", str "pre/file.txt") :=
  c6_url_roundtrip (str "ap-south-1") (str "mybucket") (str "docs/a.txt")
    (str "acct") (str "documents") (str "pre/file.txt")
    (by decide) (by decide) (by decide) (by decide) (by decide) (by decide)
    (by decide) (by decide) (by decide) (by decide) (by decide) (by decide)
    (by decide) (by decide) (by decide) (by decide)

theorem toNat_ofNat_small (m : Nat) (h : m < 55296) :
    (Char.ofNat m).toNat = m := by
  unfold Char.ofNat
  rw [dif_pos]
  · rfl
  · exact Or.inl h

theorem lower_of_allowed (c : Char) (h : isAllowedChar c = true) :
    asciiToLower c = c := by
  unfold asciiToLower
  rw [if_neg]
  simp only [isAllowedChar, Bool.or_eq_true, Bool.and_eq_true,
    decide_eq_true_eq] at h
  omega

theorem allowed_not_space (c : Char) (h : isAllowedChar c = true) :
    isJsSpace c = false := by
  simp only [isAllowedChar, Bool.or_eq_true, Bool.and_eq_true,
    decide_eq_true_eq] at h
  simp only [isJsSpace, Bool.or_eq_false_iff, decide_eq_false_iff_not]
  omega

theorem asciiToLower_idem (c : Char) :
    asciiToLower (asciiToLower c) = asciiToLower c := by
  unfold asciiToLower
  by_cases h : 65 ≤ c.toNat ∧ c.toNat ≤ 90
  · rw [if_pos h]
    have ht := toNat_ofNat_small (c.toNat + 32) (by omega)
    rw [if_neg (by rw [ht]; omega)]
  · rw [if_neg h, if_neg h]

theorem space_lower (c : Char) (h : isJsSpace c = false) :
    isJsSpace (asciiToLower c) = false := by
  unfold asciiToLower
  by_cases hc : 65 ≤ c.toNat ∧ c.toNat ≤ 90
  · rw [if_pos hc]
    have ht := toNat_ofNat_small (c.toNat + 32) (by omega)
    simp only [isJsSpace, ht, Bool.or_eq_false_iff,
      decide_eq_false_iff_not]
    omega
  · rw [if_neg hc]
    exact h

theorem lowerStr_of_allowed (l : Str) (h : l.all isAllowedChar = true) :
    lowerStr l = l := by
  induction l with
  | nil => rfl
  | cons c t ih =>
    simp only [List.all_cons, Bool.and_eq_true] at h
    simp only [lowerStr, List.map_cons]
    rw [lower_of_allowed c h.1]
    have := ih h.2
    simp only [lowerStr] at this
    rw [this]

theorem collapseWs_of_nospace (l : Str)
    (h : ∀ c ∈ l, isJsSpace c = false) : collapseWs l = l := by
  induction l with
  | nil => rfl
  | cons c t ih =>
    have hc := h c (by simp)
    show (if isJsSpace c then
        (match t.head? with
         | some d => if isJsSpace d then [] else [hyph]
         | none => [hyph])
      else [c]) ++ collapseWs t = c :: t
    rw [if_neg (by simp [hc]), ih (fun d hd => h d (by simp [hd]))]
    simp

theorem filter_of_allowed (l : Str) (h : l.all isAllowedChar = true) :
    l.filter isAllowedChar = l :=
  List.filter_eq_self.mpr (fun a ha => List.all_eq_true.mp h a ha)

theorem noPair_tail (a b c : Char) (t : Str)
    (h : noPair a b (c :: t) = true) : noPair a b t = true := by
  cases t with
  | nil => rfl
  | cons d u =>
    simp only [noPair, Bool.and_eq_true] at h
    exact h.2

theorem collapseHyphens_of_noPair (l : Str)
    (h : noPair hyph hyph l = true) : collapseHyphens l = l := by
  induction l with
  | nil => rfl
  | cons c cs ih =>
    have ht := ih (noPair_tail _ _ _ _ h)
    cases cs with
    | nil => simp [collapseHyphens]
    | cons d t =>
      have hcd : ¬(c = hyph ∧ d = hyph) := by
        intro hcd
        simp [noPair, hcd.1, hcd.2] at h
      have hcond : ¬(c = hyph ∧ (d :: t).head? = some hyph) := by
        intro hc
        exact hcd ⟨hc.1, by simpa using hc.2⟩
      show (if c = hyph ∧ (d :: t).head? = some hyph then [] else [c]) ++
        collapseHyphens (d :: t) = c :: d :: t
      rw [if_neg hcond, ht]
      simp

theorem stripLeading_of_head (l : Str) (h : l.head? ≠ some hyph) :
    stripLeadingHyphens l = l := by
  cases l with
  | nil => rfl
  | cons c t =>
    have hc : ¬(c = hyph) := fun hc => h (by simp [hc])
    simp [stripLeadingHyphens, List.dropWhile_cons, hc]

theorem stripTrailing_of_last (l : Str) (h : l.getLast? ≠ some hyph) :
    stripTrailingHyphens l = l := by
  unfold stripTrailingHyphens
  cases hr : l.reverse with
  | nil =>
    have hl : l = [] := by
      rw [← List.reverse_reverse l, hr]
      rfl
    rw [hl]
    rfl
  | cons c t =>
    have hc : ¬(c = hyph) := by
      intro hc
      apply h
      rw [← List.head?_reverse, hr, hc]
      rfl
    rw [List.dropWhile_cons, if_neg (by simpa using hc)]
    rw [show c :: t = l.reverse from hr.symm, List.reverse_reverse]

theorem remHyp_of_noPairs (l : Str) (h1 : noPair hyph hyph l = true)
    (h2 : noPair hyph dot l = true) : remHyphensBeforeDot l = l := by
  induction l with
  | nil => rfl
  | cons c cs ih =>
    have ht := ih (noPair_tail _ _ _ _ h1) (noPair_tail _ _ _ _ h2)
    have hcond : ¬(c = hyph ∧ (cs.dropWhile (· = hyph)).head? = some dot) := by
      rintro ⟨hch, hd⟩
      cases cs with
      | nil => simp [List.dropWhile] at hd
      | cons d t =>
        have hdh : ¬(d = hyph) := by
          intro hdh
          simp [noPair, hch, hdh] at h1
        rw [List.dropWhile_cons, if_neg (by simpa using hdh)] at hd
        have hddot : d = dot := by simpa using hd
        simp [noPair, hch, hddot] at h2
    show (if c = hyph ∧ (cs.dropWhile (· = hyph)).head? = some dot then []
      else [c]) ++ remHyphensBeforeDot cs = c :: cs
    rw [if_neg hcond, ht]
    simp

theorem sanitizeFileName_fixed (l : Str) (h : sanNormalized l) :
    sanitizeFileName l = l := by
  obtain ⟨hall, hhh, hhd, hhead, hlast⟩ := h
  unfold sanitizeFileName
  rw [lowerStr_of_allowed l hall,
      collapseWs_of_nospace l
        (fun c hc => allowed_not_space c (List.all_eq_true.mp hall c hc)),
      filter_of_allowed l hall,
      collapseHyphens_of_noPair l hhh,
      stripLeading_of_head l hhead,
      stripTrailing_of_last l hlast,
      remHyp_of_noPairs l hhh hhd]

theorem allOk_of_subset (l m : Str) (hsub : ∀ c ∈ m, c ∈ l)
    (h : l.all isAllowedChar = true) : m.all isAllowedChar = true :=
  List.all_eq_true.mpr (fun c hc => List.all_eq_true.mp h c (hsub c hc))

theorem filter_all (l : Str) :
    (l.filter isAllowedChar).all isAllowedChar = true :=
  List.all_eq_true.mpr (fun c hc => (List.mem_filter.mp hc).2)

theorem mem_collapseHyphens (l : Str) (c : Char)
    (h : c ∈ collapseHyphens l) : c ∈ l := by
  induction l with
  | nil => simpa [collapseHyphens] using h
  | cons d cs ih =>
    by_cases hcond : d = hyph ∧ cs.head? = some hyph
    · have h2 : c ∈ collapseHyphens cs := by
        have hh : collapseHyphens (d :: cs) = collapseHyphens cs := by
          show (if d = hyph ∧ cs.head? = some hyph then [] else [d]) ++
            collapseHyphens cs = collapseHyphens cs
          rw [if_pos hcond]
          rfl
        rwa [hh] at h
      exact List.mem_cons_of_mem d (ih h2)
    · have hh : collapseHyphens (d :: cs) = d :: collapseHyphens cs := by
        show (if d = hyph ∧ cs.head? = some hyph then [] else [d]) ++
          collapseHyphens cs = d :: collapseHyphens cs
        rw [if_neg hcond]
        rfl
      rw [hh] at h
      rcases List.mem_cons.mp h with h1 | h2
      · exact h1 ▸ List.mem_cons_self d cs
      · exact List.mem_cons_of_mem d (ih h2)

theorem mem_remHyp (l : Str) (c : Char)
    (h : c ∈ remHyphensBeforeDot l) : c ∈ l := by
  induction l with
  | nil => simpa [remHyphensBeforeDot] using h
  | cons d cs ih =>
    by_cases hcond : d = hyph ∧ (cs.dropWhile (· = hyph)).head? = some dot
    · have h2 : c ∈ remHyphensBeforeDot cs := by
        have hh : remHyphensBeforeDot (d :: cs) = remHyphensBeforeDot cs := by
          show (if d = hyph ∧ (cs.dropWhile (· = hyph)).head? = some dot
            then [] else [d]) ++ remHyphensBeforeDot cs =
              remHyphensBeforeDot cs
          rw [if_pos hcond]
          rfl
        rwa [hh] at h
      exact List.mem_cons_of_mem d (ih h2)
    · have hh : remHyphensBeforeDot (d :: cs) =
          d :: remHyphensBeforeDot cs := by
        show (if d = hyph ∧ (cs.dropWhile (· = hyph)).head? = some dot
          then [] else [d]) ++ remHyphensBeforeDot cs =
            d :: remHyphensBeforeDot cs
        rw [if_neg hcond]
        rfl
      rw [hh] at h
      rcases List.mem_cons.mp h with h1 | h2
      · exact h1 ▸ List.mem_cons_self d cs
      · exact List.mem_cons_of_mem d (ih h2)

theorem collapseHyphens_head (d : Char) (t : Str) (hd : ¬ d = hyph) :
    (collapseHyphens (d :: t)).head? = some d := by
  show ((if d = hyph ∧ t.head? = some hyph then [] else [d]) ++
    collapseHyphens t).head? = some d
  rw [if_neg (fun hc => hd hc.1)]
  rfl

theorem noPair_cons_build (a b c : Char) (X : Str)
    (h1 : noPair a b X = true)
    (h2 : ∀ x, X.head? = some x → ¬(c = a ∧ x = b)) :
    noPair a b (c :: X) = true := by
  cases X with
  | nil => rfl
  | cons x xs =>
    have hx := h2 x rfl
    simp only [noPair, Bool.and_eq_true]
    refine ⟨?_, h1⟩
    simp only [Bool.not_eq_true']
    by_cases hca : c = a
    · by_cases hxb : x = b
      · exact absurd ⟨hca, hxb⟩ hx
      · simp [hxb]
    · simp [hca]

theorem noPair_collapseHyphens (l : Str) :
    noPair hyph hyph (collapseHyphens l) = true := by
  induction l with
  | nil => rfl
  | cons c cs ih =>
    by_cases hcond : c = hyph ∧ cs.head? = some hyph
    · show noPair hyph hyph ((if c = hyph ∧ cs.head? = some hyph then []
        else [c]) ++ collapseHyphens cs) = true
      rw [if_pos hcond]
      simpa using ih
    · show noPair hyph hyph ((if c = hyph ∧ cs.head? = some hyph then []
        else [c]) ++ collapseHyphens cs) = true
      rw [if_neg hcond, List.singleton_append]
      refine noPair_cons_build hyph hyph c _ ih ?_
      intro x hx hcx
      obtain ⟨hch, hxh⟩ := hcx
      have hcsh : cs.head? ≠ some hyph := fun hh => hcond ⟨hch, hh⟩
      cases cs with
      | nil => simp [collapseHyphens] at hx
      | cons d t =>
        have hdh : ¬ d = hyph := fun hdh => hcsh (by simp [hdh])
        rw [collapseHyphens_head d t hdh] at hx
        have hxd : x = d := by simpa using hx.symm
        exact hdh (by rw [← hxd, hxh])

theorem noPair_dropWhile (a b : Char) (p : Char → Bool) (l : Str)
    (h : noPair a b l = true) : noPair a b (l.dropWhile p) = true := by
  induction l with
  | nil => exact h
  | cons c cs ih =>
    by_cases hp : p c = true
    · rw [List.dropWhile_cons, if_pos hp]
      exact ih (noPair_tail _ _ _ _ h)
    · rw [List.dropWhile_cons, if_neg hp]
      exact h

theorem dropWhile_head_not (p : Char → Bool) (l : Str) (x : Char)
    (h : (l.dropWhile p).head? = some x) : p x = false := by
  induction l with
  | nil => simp [List.dropWhile] at h
  | cons c cs ih =>
    by_cases hp : p c = true
    · rw [List.dropWhile_cons, if_pos hp] at h
      exact ih h
    · rw [List.dropWhile_cons, if_neg hp] at h
      have hx : x = c := by simpa using h.symm
      rw [hx]
      exact Bool.eq_false_iff.mpr hp

theorem stripTrailing_decomp (l : Str) :
    l = stripTrailingHyphens l ++
      (l.reverse.takeWhile (· = hyph)).reverse := by
  unfold stripTrailingHyphens
  have hsplit : l.reverse.takeWhile (· = hyph) ++
      l.reverse.dropWhile (· = hyph) = l.reverse :=
    List.takeWhile_append_dropWhile _ _
  calc l = l.reverse.reverse := (List.reverse_reverse l).symm
    _ = (l.reverse.takeWhile (· = hyph) ++
          l.reverse.dropWhile (· = hyph)).reverse := by rw [hsplit]
    _ = (l.reverse.dropWhile (· = hyph)).reverse ++
          (l.reverse.takeWhile (· = hyph)).reverse := List.reverse_append _ _

theorem noPair_prefix (a b : Char) (m r : Str)
    (h : noPair a b (m ++ r) = true) : noPair a b m = true := by
  induction m with
  | nil => rfl
  | cons c cs ih =>
    cases cs with
    | nil => rfl
    | cons d t =>
      simp only [List.cons_append, noPair, Bool.and_eq_true] at h ⊢
      exact ⟨h.1, ih (by simpa using h.2)⟩

theorem stripTrailing_head (l : Str) (h : l.head? ≠ some hyph) :
    (stripTrailingHyphens l).head? ≠ some hyph := by
  cases hm : stripTrailingHyphens l with
  | nil => simp
  | cons c t =>
    have hd := stripTrailing_decomp l
    rw [hm] at hd
    intro hx
    apply h
    rw [hd]
    simp only [List.cons_append, List.head?_cons]
    exact hx

theorem stripTrailing_last (l : Str) :
    (stripTrailingHyphens l).getLast? ≠ some hyph := by
  unfold stripTrailingHyphens
  rw [List.getLast?_reverse]
  intro hx
  have := dropWhile_head_not _ _ _ hx
  simp at this

theorem getLast?_append_right (m r : Str) (h : r ≠ []) :
    (m ++ r).getLast? = r.getLast? := by
  rw [← List.head?_reverse, ← List.head?_reverse, List.reverse_append]
  cases hr : r.reverse with
  | nil => exact absurd (List.reverse_eq_nil_iff.mp hr) h
  | cons y ys => rfl

theorem remHyp_ne_nil (l : Str) (h : l ≠ []) :
    remHyphensBeforeDot l ≠ [] := by
  induction l with
  | nil => exact absurd rfl h
  | cons c cs ih =>
    by_cases hcond : c = hyph ∧ (cs.dropWhile (· = hyph)).head? = some dot
    · have hcs : cs ≠ [] := by
        intro he
        rw [he] at hcond
        simp [List.dropWhile] at hcond
      show ((if c = hyph ∧ (cs.dropWhile (· = hyph)).head? = some dot
        then [] else [c]) ++ remHyphensBeforeDot cs) ≠ []
      rw [if_pos hcond]
      simpa using ih hcs
    · show ((if c = hyph ∧ (cs.dropWhile (· = hyph)).head? = some dot
        then [] else [c]) ++ remHyphensBeforeDot cs) ≠ []
      rw [if_neg hcond]
      simp

theorem remHyp_getLast (l : Str) (h : l ≠ []) :
    (remHyphensBeforeDot l).getLast? = l.getLast? := by
  induction l with
  | nil => exact absurd rfl h
  | cons c cs ih =>
    by_cases hcse : cs = []
    · subst hcse
      show ((if c = hyph ∧ (([] : Str).dropWhile (· = hyph)).head? = some dot
        then [] else [c]) ++ remHyphensBeforeDot []).getLast? =
          [c].getLast?
      rw [if_neg (by simp [List.dropWhile])]
      rfl
    · have hx := remHyp_ne_nil cs hcse
      have hIH := ih hcse
      show ((if c = hyph ∧ (cs.dropWhile (· = hyph)).head? = some dot
        then [] else [c]) ++ remHyphensBeforeDot cs).getLast? =
          (c :: cs).getLast?
      rw [getLast?_append_right _ _ hx, hIH]
      have : c :: cs = [c] ++ cs := by simp
      rw [this, getLast?_append_right [c] cs hcse]

theorem remHyp_head_ne (l : Str) (h : l.head? ≠ some hyph) :
    (remHyphensBeforeDot l).head? ≠ some hyph := by
  cases l with
  | nil => simp [remHyphensBeforeDot]
  | cons c cs =>
    have hc : ¬ c = hyph := fun hh => h (by simp [hh])
    show ((if c = hyph ∧ (cs.dropWhile (· = hyph)).head? = some dot
      then [] else [c]) ++ remHyphensBeforeDot cs).head? ≠ some hyph
    rw [if_neg (fun hx => hc hx.1)]
    simpa using hc

theorem dropWhile_of_head_ne (cs : Str) (h : cs.head? ≠ some hyph) :
    cs.dropWhile (· = hyph) = cs := by
  cases cs with
  | nil => rfl
  | cons c t =>
    have hc : ¬ c = hyph := fun hh => h (by simp [hh])
    rw [List.dropWhile_cons, if_neg (by simpa using hc)]

theorem noPair_head_ne (c : Char) (cs : Str)
    (h : noPair hyph hyph (c :: cs) = true) (hch : c = hyph) :
    cs.head? ≠ some hyph := by
  intro hh
  cases cs with
  | nil => simp at hh
  | cons e u =>
    have he : e = hyph := by simpa using hh
    simp [noPair, hch, he] at h

theorem remHyp_head_cases (cs : Str) (h : noPair hyph hyph cs = true) :
    (remHyphensBeforeDot cs).head? = cs.head? ∨
    ((remHyphensBeforeDot cs).head? = some dot ∧
      cs.head? = some hyph) := by
  cases cs with
  | nil => left; rfl
  | cons d t =>
    by_cases hcond : d = hyph ∧ (t.dropWhile (· = hyph)).head? = some dot
    · right
      obtain ⟨hdh, hdd⟩ := hcond
      have hth : t.head? ≠ some hyph := noPair_head_ne d t h hdh
      rw [dropWhile_of_head_ne t hth] at hdd
      cases t with
      | nil => simp at hdd
      | cons e u =>
        have he : e = dot := by simpa using hdd
        subst he
        constructor
        · show ((if d = hyph ∧ ((dot :: u).dropWhile (· = hyph)).head? =
              some dot then [] else [d]) ++
            remHyphensBeforeDot (dot :: u)).head? = some dot
          rw [if_pos ⟨hdh, by
            rw [List.dropWhile_cons, if_neg (by decide)]
            rfl⟩]
          show ((if dot = hyph ∧ (u.dropWhile (· = hyph)).head? = some dot
            then [] else [dot]) ++ remHyphensBeforeDot u).head? = some dot
          rw [if_neg (fun hx => absurd hx.1 (by decide))]
          rfl
        · simp [hdh]
    · left
      show ((if d = hyph ∧ (t.dropWhile (· = hyph)).head? = some dot
        then [] else [d]) ++ remHyphensBeforeDot t).head? = (d :: t).head?
      rw [if_neg hcond]
      rfl

theorem noPair_hh_remHyp (l : Str) (h : noPair hyph hyph l = true) :
    noPair hyph hyph (remHyphensBeforeDot l) = true := by
  induction l with
  | nil => rfl
  | cons c cs ih =>
    have htail := noPair_tail _ _ _ _ h
    by_cases hcond : c = hyph ∧ (cs.dropWhile (· = hyph)).head? = some dot
    · show noPair hyph hyph ((if c = hyph ∧
          (cs.dropWhile (· = hyph)).head? = some dot then [] else [c]) ++
        remHyphensBeforeDot cs) = true
      rw [if_pos hcond]
      simpa using ih htail
    · show noPair hyph hyph ((if c = hyph ∧
          (cs.dropWhile (· = hyph)).head? = some dot then [] else [c]) ++
        remHyphensBeforeDot cs) = true
      rw [if_neg hcond, List.singleton_append]
      refine noPair_cons_build hyph hyph c _ (ih htail) ?_
      intro x hx hcx
      obtain ⟨hch, hxh⟩ := hcx
      have hcsh : cs.head? ≠ some hyph := noPair_head_ne c cs h hch
      rcases remHyp_head_cases cs htail with hcase | hcase
      · rw [hcase] at hx
        exact hcsh (by rw [hx, hxh])
      · exact hcsh hcase.2

theorem noPair_hd_remHyp (l : Str) (h : noPair hyph hyph l = true) :
    noPair hyph dot (remHyphensBeforeDot l) = true := by
  induction l with
  | nil => rfl
  | cons c cs ih =>
    have htail := noPair_tail _ _ _ _ h
    by_cases hcond : c = hyph ∧ (cs.dropWhile (· = hyph)).head? = some dot
    · show noPair hyph dot ((if c = hyph ∧
          (cs.dropWhile (· = hyph)).head? = some dot then [] else [c]) ++
        remHyphensBeforeDot cs) = true
      rw [if_pos hcond]
      simpa using ih htail
    · show noPair hyph dot ((if c = hyph ∧
          (cs.dropWhile (· = hyph)).head? = some dot then [] else [c]) ++
        remHyphensBeforeDot cs) = true
      rw [if_neg hcond, List.singleton_append]
      refine noPair_cons_build hyph dot c _ (ih htail) ?_
      intro x hx hcx
      obtain ⟨hch, hxd⟩ := hcx
      have hcsh : cs.head? ≠ some hyph := noPair_head_ne c cs h hch
      have hcsd : cs.head? ≠ some dot := by
        intro hh
        exact hcond ⟨hch, by rw [dropWhile_of_head_ne cs hcsh]; exact hh⟩
      rcases remHyp_head_cases cs htail with hcase | hcase
      · rw [hcase] at hx
        exact hcsd (by rw [hx, hxd])
      · exact hcsh hcase.2

theorem sanitizeFileName_normalized (l : Str) :
    sanNormalized (sanitizeFileName l) := by
  unfold sanitizeFileName sanNormalized
  set F2 := (collapseWs (lowerStr l)).filter isAllowedChar with hF2
  set F3 := collapseHyphens F2 with hF3
  set F4 := stripLeadingHyphens F3 with hF4
  set F5 := stripTrailingHyphens F4 with hF5
  have h2 : F2.all isAllowedChar = true := filter_all _
  have h3a : F3.all isAllowedChar = true :=
    allOk_of_subset F2 F3 (fun c hc => mem_collapseHyphens F2 c hc) h2
  have h3b : noPair hyph hyph F3 = true := noPair_collapseHyphens F2
  have h4sub : ∀ c ∈ F4, c ∈ F3 := by
    intro c hc
    rw [hF4] at hc
    exact (List.dropWhile_sublist _).subset hc
  have h4a := allOk_of_subset F3 F4 h4sub h3a
  have h4b : noPair hyph hyph F4 = true := by
    rw [hF4]
    exact noPair_dropWhile _ _ _ F3 h3b
  have h4c : F4.head? ≠ some hyph := by
    intro hx
    rw [hF4] at hx
    have := dropWhile_head_not _ F3 hyph hx
    simp at this
  have h5sub : ∀ c ∈ F5, c ∈ F4 := by
    intro c hc
    rw [hF5] at hc
    unfold stripTrailingHyphens at hc
    exact List.mem_reverse.mp
      ((List.dropWhile_sublist _).subset (List.mem_reverse.mp hc))
  have h5a := allOk_of_subset F4 F5 h5sub h4a
  have h5b : noPair hyph hyph F5 = true := by
    have hb := h4b
    rw [stripTrailing_decomp F4] at hb
    rw [hF5]
    exact noPair_prefix hyph hyph _ _ hb
  have h5c : F5.head? ≠ some hyph := by
    rw [hF5]
    exact stripTrailing_head F4 h4c
  have h5d : F5.getLast? ≠ some hyph := by
    rw [hF5]
    exact stripTrailing_last F4
  refine ⟨?_, noPair_hh_remHyp F5 h5b, noPair_hd_remHyp F5 h5b,
    remHyp_head_ne F5 h5c, ?_⟩
  · exact allOk_of_subset F5 _ (fun c hc => mem_remHyp F5 c hc) h5a
  · by_cases hne : F5 = []
    · rw [hne]
      simp [remHyphensBeforeDot]
    · rw [remHyp_getLast F5 hne]
      exact h5d

theorem dropWhile_all_false (p : Char → Bool) (l : Str)
    (h : ∀ c ∈ l, p c = false) : l.dropWhile p = l := by
  cases l with
  | nil => rfl
  | cons c t =>
    rw [List.dropWhile_cons, if_neg (by simp [h c (by simp)])]

theorem trim_of_nospace (l : Str) (h : ∀ c ∈ l, isJsSpace c = false) :
    trimStr l = l := by
  unfold trimStr
  rw [dropWhile_all_false isJsSpace l h,
      dropWhile_all_false isJsSpace l.reverse
        (fun c hc => h c (List.mem_reverse.mp hc)),
      List.reverse_reverse]

theorem mem_stripTrailing (l : Str) (c : Char)
    (h : c ∈ stripTrailingHyphens l) : c ∈ l := by
  unfold stripTrailingHyphens at h
  exact List.mem_reverse.mp
    ((List.dropWhile_sublist _).subset (List.mem_reverse.mp h))

theorem lowerStr_fixed_of (l : Str)
    (h : ∀ c ∈ l, asciiToLower c = c) : lowerStr l = l := by
  induction l with
  | nil => rfl
  | cons c t ih =>
    simp only [lowerStr, List.map_cons]
    rw [h c (by simp)]
    have ht := ih (fun d hd => h d (by simp [hd]))
    simp only [lowerStr] at ht
    rw [ht]

theorem sanitizeBucketName_idem_nospace (x : Str)
    (h : ∀ c ∈ x, isJsSpace c = false) :
    sanitizeBucketName (sanitizeBucketName x) = sanitizeBucketName x := by
  have htrim : trimStr x = x := trim_of_nospace x h
  have hynospace : ∀ c ∈ stripTrailingHyphens (lowerStr x),
      isJsSpace c = false := by
    intro c hc
    have h1 := mem_stripTrailing _ c hc
    simp only [lowerStr] at h1
    rcases List.mem_map.mp h1 with ⟨d, hd, hdc⟩
    rw [← hdc]
    exact space_lower d (h d hd)
  have hylower : lowerStr (stripTrailingHyphens (lowerStr x)) =
      stripTrailingHyphens (lowerStr x) := by
    apply lowerStr_fixed_of
    intro c hc
    have h1 := mem_stripTrailing _ c hc
    simp only [lowerStr] at h1
    rcases List.mem_map.mp h1 with ⟨d, hd, hdc⟩
    rw [← hdc]
    exact asciiToLower_idem d
  unfold sanitizeBucketName
  rw [htrim, trim_of_nospace _ hynospace, hylower,
      stripTrailing_of_last _ (stripTrailing_last _)]

/-- C8 counterexample: `sanitizeBucketName` is not idempotent — on `"a -"`
the first pass strips the trailing hyphen and exposes a trailing space
(`"a "`), which the second pass trims away (`"a"`). -/
theorem c8_sanitize_idempotent_cex :
    sanitizeBucketName (sanitizeBucketName (str "a -")) ≠
      sanitizeBucketName (str "a -") := by decide

/-- C8 amended: `sanitizeFileName` is idempotent on every input;
`sanitizeBucketName` is idempotent on whitespace-free inputs (stripping
trailing hyphens can expose whitespace that only the second pass trims, as
the counterexample shows); both map the empty string to itself and are
total by construction. -/
theorem c8_sanitize_idempotent (x : Str) :
    sanitizeFileName (sanitizeFileName x) = sanitizeFileName x ∧
    ((∀ c ∈ x, isJsSpace c = false) →
      sanitizeBucketName (sanitizeBucketName x) = sanitizeBucketName x) ∧
    sanitizeFileName [] = [] ∧ sanitizeBucketName [] = [] :=
  ⟨sanitizeFileName_fixed _ (sanitizeFileName_normalized x),
   sanitizeBucketName_idem_nospace x, rfl, rfl⟩

/-- C8 witness: the amended theorem at the whitespace-free input
`ABC--x.TXT`. -/
theorem c8_sanitize_idempotent_witness :
    sanitizeFileName (sanitizeFileName (str "ABC--x.TXT")) =
      sanitizeFileName (str "ABC--x.TXT") ∧
    sanitizeBucketName (sanitizeBucketName (str "ABC--x.TXT")) =
      sanitizeBucketName (str "ABC--x.TXT") :=
  ⟨(c8_sanitize_idempotent (str "ABC--x.TXT")).1,
   (c8_sanitize_idempotent (str "ABC--x.TXT")).2.1 (by decide)⟩
